import Mathlib

/-!
The execution engine of cicd-runner, as a shallow embedding.

Embedded from `Go/projects/cicd-runner`:

* `pipeline/step.go`, `pipeline/pipeline.go`: `Step`, `Pipeline`, `ShouldRun`, `Validate`, `Load`;
* `executor/executor.go`: `Result`, the `Executor` interface;
* `executor/local.go`: `LocalExecutor.Execute`, `executeHooks`;
* `executor/mock.go`: `MockExecutor`, `SetResult`, `MockExecutor.Execute`;
* `runner/runner.go`: `Run`, `executeSteps`, `prepareEnv`, `prepareStepEnv`.

Modelling conventions.

* Go strings are Lean strings (sequences of Unicode code points; the program only
  handles valid UTF-8 text here).
* A Go `map[string]string` is a `GoMap`: the list of its entries, in the order
  in which a `range` loop visits them. A well-formed map has pairwise distinct keys
  (`GoMap.WF`); a nil map reads as the empty list.
* Maps are reference values. The two maps the runner allocates and writes
  (`env` in `prepareEnv` and in `prepareStepEnv`) live in a `Heap` of map cells; maps
  that are only read (configuration, pipeline and step environments) are passed by value.
* A `*Result` of the mock executor is an index into a `ResultHeap` of result objects.
* The case tables of package `unicode` outside ASCII are a parameter, `lowerTable`.
* Go `int` values are `Int`; the code does no arithmetic on them, so no overflow arises.
* `context.Context` and wall-clock time are not modelled: a measured duration is a
  natural number taken from an oracle (`OS.since`, `elapsed`), and it is `0` where the
  code leaves the field at its zero value.
* Errors are their messages (`err.Error()`); a nil error is `none`.
-/

namespace CicdRunner

/-! ## Go maps -/

/-- Entries of a Go `map[string]string`, in iteration order. -/
abbrev GoMap := List (String × String)

namespace GoMap

/-- Map lookup `m[k]` with the comma-ok flag folded into the option. -/
def get? : GoMap → String → Option String
  | [], _ => none
  | (k', v') :: t, k => if k' = k then some v' else get? t k

/-- Map assignment `m[k] = v`: overwrite the entry of `k` when there is one, else add one. -/
def set : GoMap → String → String → GoMap
  | [], k, v => [(k, v)]
  | (k', v') :: t, k, v => if k' = k then (k, v) :: t else (k', v') :: set t k v

/-- The keys of a map, in iteration order. -/
def keys (m : GoMap) : List String := m.map Prod.fst

/-- Well-formedness of a Go map: every key occurs once. -/
def WF (m : GoMap) : Prop := m.keys.Nodup

instance (m : GoMap) : Decidable m.WF := by
  unfold WF
  infer_instance

end GoMap

/-! ## Data model (`pipeline/step.go`, `pipeline/pipeline.go`, `executor/executor.go`) -/

/-- The record `pipeline.Step`. `Env` is `none` for a nil map. -/
structure Step where
  Name : String
  Image : String
  Commands : List String
  Env : Option GoMap
  When : String
  Timeout : Int
  OnSuccess : List String
  OnFailure : List String
  deriving DecidableEq, Repr

/-- The record `pipeline.Pipeline`. -/
structure Pipeline where
  Name : String
  Version : String
  Steps : List Step
  Env : GoMap
  Workspace : String
  Concurrency : Int
  deriving DecidableEq, Repr

/-- The record `executor.Result`; `Step` is the step the pointer refers to. -/
structure Result where
  Success : Bool
  ExitCode : Int
  Output : String
  Error : String
  Duration : Nat
  Step : Step
  deriving DecidableEq, Repr

/-- The method `Step.ShouldRun` (step.go 15-23). -/
def Step.ShouldRun (s : Step) : Bool :=
  if s.When = "" ∨ s.When = "always" then
    true
  else
    decide (s.When = "on_success" ∨ s.When = "on_failure")

/-- The sentinel error messages of pipeline.go 10-14. -/
def ErrStepNameRequired : String := "step name is required"

/-- Second sentinel error of pipeline.go. -/
def ErrStepCommandsRequired : String := "step commands are required"

/-- Third sentinel error of pipeline.go. -/
def ErrPipelineNameRequired : String := "pipeline name is required"

/-- The method `Step.Validate` (step.go 25-34): `none` is a nil error. -/
def Step.Validate (s : Step) : Option String :=
  if s.Name = "" then
    some ErrStepNameRequired
  else if s.Commands.length = 0 then
    some ErrStepCommandsRequired
  else
    none

/-- The loop of `Pipeline.Validate` over the steps, `i` being the index of the head. -/
def validateSteps : Nat → List Step → Option String
  | _, [] => none
  | i, step :: rest =>
    match step.Validate with
    | some err => some ("step " ++ toString i ++ " (" ++ step.Name ++ "): " ++ err)
    | none => validateSteps (i + 1) rest

/-- The method `Pipeline.Validate` (pipeline.go 46-64). -/
def Pipeline.Validate (p : Pipeline) : Option String :=
  if p.Name = "" then
    some ErrPipelineNameRequired
  else if p.Steps.length = 0 then
    some "pipeline must have at least one step"
  else
    validateSteps 0 p.Steps

/-- The two library calls of `pipeline.Load`: `os.ReadFile` and `yaml.Unmarshal`. -/
structure FileSystem where
  readFile : String → Except String String
  unmarshal : String → Except String Pipeline

/-- The function `pipeline.Load` (pipeline.go 25-44). -/
def Load (fs : FileSystem) (path : String) : Except String Pipeline :=
  match fs.readFile path with
  | .error err => .error ("failed to read pipeline file: " ++ err)
  | .ok data =>
    match fs.unmarshal data with
    | .error err => .error ("failed to parse pipeline file: " ++ err)
    | .ok p =>
      match p.Validate with
      | some err => .error ("invalid pipeline: " ++ err)
      | none => .ok p

/-! ## Effective concurrency (`runner.go` 75-81) -/

/-- The pool size `executeSteps` computes from `p.Concurrency` and
`config.Runner.Capacity`. -/
def effectiveConcurrency (pipelineConcurrency capacity : Int) : Int :=
  let concurrency := if pipelineConcurrency ≤ 0 then 1 else pipelineConcurrency
  if concurrency > capacity then capacity else concurrency

/-! ## Configuration (`config/config.go`) -/

/-- The record `config.RunnerConfig`; `Timeout` is a duration, not interpreted here. -/
structure RunnerConfig where
  Capacity : Int
  Timeout : Int
  Workspace : String
  deriving DecidableEq, Repr

/-- The record `config.ExecutorConfig`; the field `Type` is spelled `Typ`. -/
structure ExecutorConfig where
  Typ : String
  Env : GoMap
  deriving DecidableEq, Repr

/-- The record `config.Config` (the logging section plays no role in execution). -/
structure Config where
  Runner : RunnerConfig
  Executor : ExecutorConfig
  deriving DecidableEq, Repr

/-! ## The heap of map cells -/

/-- The maps allocated so far; an address is an index into `cells`. -/
structure Heap where
  cells : List GoMap
  deriving DecidableEq, Repr

namespace Heap

/-- The entries of the map at address `a`. -/
def read (h : Heap) (a : Nat) : GoMap := h.cells.getD a []

/-- The allocation `make(map[string]string)`: a fresh empty cell and its address. -/
def alloc (h : Heap) : Heap × Nat := (⟨h.cells ++ [[]]⟩, h.cells.length)

/-- The assignment `m[k] = v` on the map at address `a`. -/
def assign (h : Heap) (a : Nat) (k v : String) : Heap :=
  ⟨h.cells.set a ((h.read a).set k v)⟩

/-- The loop `for k, v := range src { dst[k] = v }` over the entries `src`. -/
def copyInto (h : Heap) (dst : Nat) (src : GoMap) : Heap :=
  src.foldl (fun h kv => h.assign dst kv.1 kv.2) h

end Heap

/-! ## The executor interface and the runner (`executor/executor.go`, `runner/runner.go`) -/

/-- The interface `executor.Executor`. `Execute` returns either a plumbing error or a
result (a nil result with a nil error is not produced by either implementation and is
not modelled); `Setup` and `Teardown` return their error, `none` for nil. -/
structure Executor where
  Execute : Step → GoMap → String → Except String Result
  Setup : String → Option String
  Teardown : String → Option String
  Typ : String

/-- The record `runner.Runner`. -/
structure Runner where
  config : Config
  executor : Executor

/-- The method `Runner.prepareEnv` (runner.go 131-146): allocates `env`, copies the configuration
environment, then the pipeline environment, and returns the address of `env`. -/
def Runner.prepareEnv (r : Runner) (h : Heap) (p : Pipeline) : Heap × Nat :=
  let (h0, env) := h.alloc
  let h1 := h0.copyInto env r.config.Executor.Env
  let h2 := h1.copyInto env p.Env
  (h2, env)

/-- The method `Runner.prepareStepEnv` (runner.go 148-165): allocates `env`, copies the map at
address `baseEnv`, then the step environment when it is not nil. -/
def Runner.prepareStepEnv (_r : Runner) (h : Heap) (_p : Pipeline) (step : Step)
    (baseEnv : Nat) : Heap × Nat :=
  let (h0, env) := h.alloc
  let h1 := h0.copyInto env (h0.read baseEnv)
  let h2 :=
    match step.Env with
    | some stepEnv => h1.copyInto env stepEnv
    | none => h1
  (h2, env)

/-! ### The goroutines of `executeSteps` (runner.go 83-128)

Every goroutine runs the same five atomic actions in order; the scheduler interleaves
them freely with each other and with the launching loop of the main goroutine. -/

/-- Program counter of one step goroutine. -/
inductive Pc where
  /-- Created by `go func`, blocked at or before `sem <- struct{}{}`. -/
  | waiting
  /-- Token acquired; `prepareStepEnv` and the call of `Execute` come next. -/
  | holding
  /-- Inside `Execute`, called with the step environment at address `stepEnv`. -/
  | inExecute (stepEnv : Nat)
  /-- The call of `Execute` returned and `result` is final (synthesized when `err != nil`). -/
  | returned (result : Result)
  /-- The result was appended under the mutex. -/
  | appended
  /-- Deferred calls ran: token released, `wg.Done()`. -/
  | done
  deriving DecidableEq, Repr

/-- One launched goroutine: its argument `s` and its program counter. -/
structure Task where
  step : Step
  pc : Pc
  deriving DecidableEq, Repr

/-- The shared state of `executeSteps`: the loop index of the main goroutine, the
goroutines launched, the number of tokens in the channel `sem`, the slice `results`,
the heap of maps, and the log of the `Execute` calls made so far. -/
structure PoolState where
  i : Nat
  tasks : List Task
  sem : Nat
  results : List Result
  heap : Heap
  calls : List Step
  deriving DecidableEq, Repr

/-- What the scheduler runs next: one iteration of the launching loop, or the next
action of goroutine `j`. -/
inductive Action where
  | main
  | task (j : Nat)
  deriving DecidableEq, Repr

/-- The result a goroutine keeps once `Execute` has returned (runner.go 110-118). -/
def collectResult (out : Except String Result) (s : Step) : Result :=
  match out with
  | .ok result => result
  | .error err =>
    { Success := false, ExitCode := 1, Output := "", Error := err, Duration := 0, Step := s }

/-- One atomic action; `none` when the action is blocked or does not exist. -/
def poolStep (r : Runner) (p : Pipeline) (env : Nat) (workspace : String)
    (concurrency : Int) (st : PoolState) : Action → Option PoolState
  | .main =>
    match p.Steps[st.i]? with
    | none => none
    | some step =>
      if !step.ShouldRun then
        some { st with i := st.i + 1 }
      else
        some { st with i := st.i + 1, tasks := st.tasks ++ [⟨step, .waiting⟩] }
  | .task j =>
    match st.tasks[j]? with
    | none => none
    | some t =>
      match t.pc with
      | .waiting =>
        if (st.sem : Int) < concurrency then
          some { st with sem := st.sem + 1, tasks := st.tasks.set j ⟨t.step, .holding⟩ }
        else
          none
      | .holding =>
        let (h, stepEnv) := r.prepareStepEnv st.heap p t.step env
        some { st with
          heap := h
          calls := st.calls ++ [t.step]
          tasks := st.tasks.set j ⟨t.step, .inExecute stepEnv⟩ }
      | .inExecute stepEnv =>
        let result :=
          collectResult (r.executor.Execute t.step (st.heap.read stepEnv) workspace) t.step
        some { st with tasks := st.tasks.set j ⟨t.step, .returned result⟩ }
      | .returned result =>
        some { st with
          results := st.results ++ [result]
          tasks := st.tasks.set j ⟨t.step, .appended⟩ }
      | .appended =>
        some { st with sem := st.sem - 1, tasks := st.tasks.set j ⟨t.step, .done⟩ }
      | .done => none

/-- Runs a schedule; `none` as soon as a scheduled action cannot run. -/
def poolRun (r : Runner) (p : Pipeline) (env : Nat) (workspace : String)
    (concurrency : Int) : PoolState → List Action → Option PoolState
  | st, [] => some st
  | st, a :: rest =>
    match poolStep r p env workspace concurrency st a with
    | none => none
    | some st1 => poolRun r p env workspace concurrency st1 rest

/-- The state in which `executeSteps` starts its loop. -/
def poolInit (h : Heap) : PoolState :=
  { i := 0, tasks := [], sem := 0, results := [], heap := h, calls := [] }

/-- The condition under which `wg.Wait()` returns to the main goroutine: the loop is
over and every launched goroutine has called `wg.Done()`. -/
def PoolState.finished (p : Pipeline) (st : PoolState) : Bool :=
  decide (st.i = p.Steps.length) && st.tasks.all (fun t => decide (t.pc = .done))

/-- The state of `executeSteps` when it returns under the schedule `sched`; `none` when
`sched` is not a complete execution. -/
def Runner.executeStepsFinal (r : Runner) (h : Heap) (p : Pipeline) (env : Nat)
    (workspace : String) (sched : List Action) : Option PoolState :=
  let concurrency := effectiveConcurrency p.Concurrency r.config.Runner.Capacity
  match poolRun r p env workspace concurrency (poolInit h) sched with
  | none => none
  | some st => if st.finished p then some st else none

/-- The method `Runner.executeSteps` (runner.go 74-129): the pair `(results, err)` it returns,
where `err` is always nil. -/
def Runner.executeSteps (r : Runner) (h : Heap) (p : Pipeline) (env : Nat)
    (workspace : String) (sched : List Action) : Option (List Result × Option String) :=
  (r.executeStepsFinal h p env workspace sched).map (fun st => (st.results, none))

/-- The steps on which `executeSteps` called `Execute`, in call order. -/
def Runner.executeCalls (r : Runner) (h : Heap) (p : Pipeline) (env : Nat)
    (workspace : String) (sched : List Action) : List Step :=
  match r.executeStepsFinal h p env workspace sched with
  | none => []
  | some st => st.calls

/-- A call on the executor, as logged by `Run`. -/
inductive ExecutorCall where
  | Setup (workspace : String)
  | Execute (step : Step)
  | Teardown (workspace : String)
  deriving DecidableEq, Repr

/-- What `Run` returns and the executor calls it made. -/
structure RunOutcome where
  err : Option String
  calls : List ExecutorCall
  deriving DecidableEq, Repr

/-- The last loop of `Run` (runner.go 63-70). -/
def runVerdict : List Result → Option String
  | [] => none
  | result :: rest =>
    if !result.Success then
      some ("pipeline failed at step: " ++ result.Step.Name)
    else
      runVerdict rest

/-- The method `Runner.Run` (runner.go 29-71) under the goroutine schedule `sched`, started on the
heap `h`. Printing the results is not modelled. -/
def Runner.Run (r : Runner) (fs : FileSystem) (h : Heap) (pipelinePath : String)
    (sched : List Action) : Option RunOutcome :=
  match Load fs pipelinePath with
  | .error err => some ⟨some ("failed to load pipeline: " ++ err), []⟩
  | .ok p =>
    let workspace := if p.Workspace ≠ "" then p.Workspace else r.config.Runner.Workspace
    match r.executor.Setup workspace with
    | some err => some ⟨some ("failed to setup executor: " ++ err), [.Setup workspace]⟩
    | none =>
      let (h1, env) := r.prepareEnv h p
      match r.executeSteps h1 p env workspace sched with
      | none => none
      | some (results, err) =>
        let calls :=
          [.Setup workspace] ++ (r.executeCalls h1 p env workspace sched).map .Execute
            ++ [.Teardown workspace]
        match err with
        | some err => some ⟨some ("failed to execute pipeline: " ++ err), calls⟩
        | none => some ⟨runVerdict results, calls⟩

/-! ## The `strings` functions used by the local executor -/

/-- The predicate `unicode.IsSpace`. -/
def isSpace (c : Char) : Bool :=
  let n := c.toNat
  (9 ≤ n && n ≤ 13) || n == 32 || n == 133 || n == 160 || n == 5760
    || (8192 ≤ n && n ≤ 8202) || n == 8232 || n == 8233 || n == 8239 || n == 8287
    || n == 12288

/-- Substring test on character lists. -/
def containsChars : List Char → List Char → Bool
  | [], sub => sub.isEmpty
  | c :: t, sub => sub.isPrefixOf (c :: t) || containsChars t sub

/-- The function `strings.Contains`. -/
def Contains (s substr : String) : Bool := containsChars s.data substr.data

/-- Splitting around runs of white space; `cur` is the field being read. -/
def fieldsChars : List Char → List Char → List (List Char)
  | [], cur => if cur.isEmpty then [] else [cur]
  | c :: t, cur =>
    if isSpace c then
      if cur.isEmpty then fieldsChars t [] else cur :: fieldsChars t []
    else
      fieldsChars t (cur ++ [c])

/-- The function `strings.Fields`. -/
def Fields (s : String) : List String := (fieldsChars s.data []).map String.mk

/-! ## The local executor (`executor/local.go`) -/

/-- An `exec.Cmd` as configured before `Run`: the program name and the arguments given
to `exec.CommandContext`, the working directory, the environment list, and the bound of
the context it runs under (`none` when the step sets no timeout of its own). -/
structure Cmd where
  Name : String
  Args : List String
  Dir : String
  Env : List String
  Timeout : Option Int
  deriving DecidableEq, Repr

/-- The `os.ProcessState` an `*exec.ExitError` wraps: the process exited with a status,
or it was ended by a signal (as when its context expires and the process is killed). -/
inductive ProcessState where
  | exited (status : Int)
  | signaled
  deriving DecidableEq, Repr

/-- The method `ProcessState.ExitCode`: the exit status of a process that exited, and
-1 for a process ended by a signal. -/
def ProcessState.ExitCode : ProcessState → Int
  | .exited status => status
  | .signaled => -1

/-- A non-nil error of `cmd.Run()`: an `*exec.ExitError` with the process state it
wraps, or any other error (for instance a launch failure). -/
inductive RunError where
  | exitError (state : ProcessState) (msg : String)
  | other (msg : String)
  deriving DecidableEq, Repr

/-- The message `err.Error()`. -/
def RunError.Error : RunError → String
  | .exitError _ msg => msg
  | .other msg => msg

/-- What one `cmd.Run()` did: the text written to stdout and stderr, and its error. -/
structure ProcessResult where
  written : String
  err : Option RunError
  deriving DecidableEq, Repr

/-- The operating system as seen by the local executor, over world states `σ`:
running a process, `os.Environ()`, and the time elapsed between two world states. -/
structure OS (σ : Type) where
  run : σ → Cmd → ProcessResult × σ
  environ : σ → List String
  since : σ → σ → Nat

/-- One process launch, logged: the command, whether `executeHooks` launched it, and
the error `cmd.Run()` returned. -/
structure Launch where
  cmd : Cmd
  hook : Bool
  err : Option RunError
  deriving DecidableEq, Repr

/-- What `executeHooks` can reach: the world, the output buffer and the launch log. -/
structure ExecState (σ : Type) where
  world : σ
  output : String
  log : List Launch

/-- The local variables of `Execute` while the commands run. -/
structure LocalState (σ : Type) where
  io : ExecState σ
  lastErr : Option RunError
  exitCode : Int

/-- The program and arguments `executeHooks` hands to `exec.CommandContext` for `hook`
(local.go 156-161): `none` when the string has no field and the hook is skipped. -/
def hookCommand (hook : String) : Option (String × List String) :=
  match Fields hook with
  | [] => none
  | name :: args => some (name, args)

/-- The method `LocalExecutor.executeHooks` (local.go 153-169); the error of `cmd.Run()` is
dropped and only kept in the launch log. -/
def executeHooks {σ : Type} (os : OS σ) (timeout : Option Int) :
    List String → List String → String → ExecState σ → ExecState σ
  | [], _, _, st => st
  | hook :: rest, env, workspace, st =>
    match hookCommand hook with
    | none => executeHooks os timeout rest env workspace st
    | some (name, args) =>
      let cmd : Cmd := ⟨name, args, workspace, env, timeout⟩
      let (res, w) := os.run st.world cmd
      executeHooks os timeout rest env workspace
        ⟨w, st.output ++ res.written, st.log ++ [⟨cmd, true, res.err⟩]⟩

/-- The exit code `Execute` records for a failed command (local.go 84-88, 114-118). -/
def exitCodeOf : RunError → Int
  | .exitError state _ => state.ExitCode
  | .other _ => 1

/-- The part of the loop body that both branches of `Execute` share word for word
(local.go 77-98 and 107-127): build the command for `name` and `args`, run it; on an
error record it, run the `on_failure` hooks and leave the loop (`true`), else go on
(`false`). -/
def runMainCommand {σ : Type} (os : OS σ) (step : Step) (workspace : String)
    (execEnv : List String) (timeout : Option Int) (name : String) (args : List String)
    (st : LocalState σ) : LocalState σ × Bool :=
  let cmd : Cmd := ⟨name, args, workspace, execEnv, timeout⟩
  let (res, w) := os.run st.io.world cmd
  let io1 : ExecState σ :=
    ⟨w, st.io.output ++ res.written, st.io.log ++ [⟨cmd, false, res.err⟩]⟩
  match res.err with
  | some err =>
    let exitCode := exitCodeOf err
    let io2 : ExecState σ :=
      { io1 with output := io1.output ++ ("\nError: " ++ err.Error ++ "\n") }
    let io3 :=
      if step.OnFailure.length > 0 then
        executeHooks os timeout step.OnFailure execEnv workspace io2
      else
        io2
    (⟨io3, some err, exitCode⟩, true)
  | none => (⟨io1, st.lastErr, st.exitCode⟩, false)

/-- The test `needsShell` (local.go 70-73). -/
def needsShell (cmdStr : String) : Bool :=
  Contains cmdStr "|" || Contains cmdStr ">" ||
    Contains cmdStr "<" || Contains cmdStr "&&" ||
    Contains cmdStr "||" || Contains cmdStr ";" ||
    Contains cmdStr "$"

/-- The program and arguments the loop body hands to `exec.CommandContext` for
`cmdStr` (local.go 75-77 and 101-107): `none` when the string has no field and the
iteration is skipped. -/
def mainCommand (cmdStr : String) : Option (String × List String) :=
  if needsShell cmdStr then
    some ("sh", ["-c", cmdStr])
  else
    match Fields cmdStr with
    | [] => none
    | name :: args => some (name, args)

/-- The loop over `step.Commands` (local.go 67-128). -/
def runCommands {σ : Type} (os : OS σ) (step : Step) (workspace : String)
    (execEnv : List String) (timeout : Option Int) :
    List String → LocalState σ → LocalState σ
  | [], st => st
  | cmdStr :: rest, st =>
    match mainCommand cmdStr with
    | none => runCommands os step workspace execEnv timeout rest st
    | some (name, args) =>
      match runMainCommand os step workspace execEnv timeout name args st with
      | (st1, true) => st1
      | (st1, false) => runCommands os step workspace execEnv timeout rest st1

/-- Appends one `KEY=VALUE` entry per entry of the map (local.go 53-55, 57-59). -/
def appendEnv (execEnv : List String) (m : GoMap) : List String :=
  m.foldl (fun acc kv => acc ++ [kv.1 ++ "=" ++ kv.2]) execEnv

/-- The environment list of `Execute` (local.go 51-60). -/
def buildExecEnv (inherited : List String) (env : GoMap) (step : Step) : List String :=
  let execEnv := appendEnv inherited env
  match step.Env with
  | some stepEnv => appendEnv execEnv stepEnv
  | none => execEnv

/-- The context bound `Execute` derives from the step (local.go 44-49). -/
def stepTimeout (step : Step) : Option Int :=
  if step.Timeout > 0 then some step.Timeout else none

/-- What `LocalExecutor.Execute` returns, with the world it leaves and its launches. -/
structure ExecuteOutcome (σ : Type) where
  result : Result
  err : Option String
  world : σ
  log : List Launch

/-- The method `LocalExecutor.Execute` (local.go 40-151) started in the world `w`. -/
def LocalExecutor.Execute {σ : Type} (os : OS σ) (w : σ) (step : Step) (env : GoMap)
    (workspace : String) : ExecuteOutcome σ :=
  let timeout := stepTimeout step
  let execEnv := buildExecEnv (os.environ w) env step
  let st := runCommands os step workspace execEnv timeout step.Commands
    ⟨⟨w, "", []⟩, none, 0⟩
  let io :=
    if st.lastErr = none ∧ step.OnSuccess.length > 0 then
      executeHooks os timeout step.OnSuccess execEnv workspace st.io
    else
      st.io
  let result : Result :=
    { Success := decide (st.lastErr = none)
      ExitCode := st.exitCode
      Output := io.output
      Error := ""
      Duration := os.since w io.world
      Step := step }
  let result :=
    match st.lastErr with
    | some err => { result with Error := err.Error }
    | none => result
  ⟨result, none, io.world, io.log⟩

/-! ## The mock executor (`executor/mock.go`) -/

/-- The `Result` objects allocated so far; a `*Result` is an index into `objs`. -/
structure ResultHeap where
  objs : List Result
  deriving DecidableEq, Repr

namespace ResultHeap

/-- The object behind the pointer `a`; `none` for a pointer to no object (nil). -/
def read (H : ResultHeap) (a : Nat) : Option Result := H.objs[a]?

/-- The allocation `&Result{...}`: the heap with the new object, and its pointer. -/
def alloc (H : ResultHeap) (r : Result) : ResultHeap × Nat := (⟨H.objs ++ [r]⟩, H.objs.length)

/-- A write through the pointer `a` that leaves the object with the value `r`. -/
def write (H : ResultHeap) (a : Nat) (r : Result) : ResultHeap := ⟨H.objs.set a r⟩

end ResultHeap

/-- Entries of a Go `map[string]*Result`, in iteration order. -/
abbrev ResultMap := List (String × Nat)

namespace ResultMap

/-- Map lookup `m[k]` with the comma-ok flag folded into the option. -/
def get? : ResultMap → String → Option Nat
  | [], _ => none
  | (k', v') :: t, k => if k' = k then some v' else get? t k

/-- Map assignment `m[k] = v`. -/
def set : ResultMap → String → Nat → ResultMap
  | [], k, v => [(k, v)]
  | (k', v') :: t, k, v => if k' = k then (k, v) :: t else (k', v') :: set t k v

end ResultMap

/-- The record `executor.MockExecutor`. -/
structure MockExecutor where
  results : ResultMap
  deriving DecidableEq, Repr

/-- The constructor `NewMockExecutor` (mock.go 17-22). -/
def NewMockExecutor : MockExecutor := { results := [] }

/-- The method `MockExecutor.SetResult` (mock.go 24-27). -/
def MockExecutor.SetResult (e : MockExecutor) (stepName : String) (result : Nat) :
    MockExecutor :=
  { results := ResultMap.set e.results stepName result }

/-- The method `MockExecutor.Type` (mock.go 29-32). -/
def MockExecutor.Typ (_e : MockExecutor) : String := "mock"

/-- The method `MockExecutor.Setup` (mock.go 34-37). -/
def MockExecutor.Setup (_e : MockExecutor) (_workspace : String) : Option String := none

/-- The method `MockExecutor.Teardown` (mock.go 39-42). -/
def MockExecutor.Teardown (_e : MockExecutor) (_workspace : String) : Option String := none

/-- The ASCII branch of `unicode.ToLower`: `A` to `Z` move to `a` to `z`. -/
def asciiLower (c : Char) : Char :=
  if 65 ≤ c.toNat ∧ c.toNat ≤ 90 then Char.ofNat (c.toNat + 32) else c

/-- The function `unicode.ToLower`: code points up to `MaxASCII` are lowered by
`asciiLower`, the others by the case tables of the library, the parameter
`lowerTable`. -/
def unicodeToLower (lowerTable : Char → Char) (c : Char) : Char :=
  if c.toNat ≤ 127 then asciiLower c else lowerTable c

/-- The function `strings.ToLower`. -/
def ToLower (lowerTable : Char → Char) (s : String) : String :=
  String.mk (s.data.map (unicodeToLower lowerTable))

/-- The text `fmt` prints for a `[]string` under the verb `%v`. -/
def formatStrings (xs : List String) : String := "[" ++ " ".intercalate xs ++ "]"

/-- The transcript the mock executor writes (mock.go 56-73). -/
def mockTranscript (step : Step) (env : GoMap) (workspace : String) : String :=
  let output := ""
  let output := output ++ ("[MOCK] Executing step: " ++ step.Name ++ "\n")
  let output := output ++ ("[MOCK] Commands: " ++ formatStrings step.Commands ++ "\n")
  let output := output ++ ("[MOCK] Workspace: " ++ workspace ++ "\n")
  let output :=
    if env.length > 0 then
      env.foldl (fun out kv => out ++ ("  " ++ kv.1 ++ "=" ++ kv.2 ++ "\n"))
        (output ++ "[MOCK] Environment variables:\n")
    else
      output
  step.Commands.foldl
    (fun out cmd =>
      out ++ ("[MOCK] Running: " ++ cmd ++ "\n")
        ++ "[MOCK] ✓ Command completed successfully\n")
    output

/-- The method `MockExecutor.Execute` (mock.go 44-99) on the heap `H`, where `elapsed`
is the value `time.Since(startTime)` takes. It returns the pointer to the result, the
error, and the heap it leaves; `none` is the panic of a write through a pointer to no
object. -/
def MockExecutor.Execute (lowerTable : Char → Char) (elapsed : Nat) (e : MockExecutor)
    (H : ResultHeap) (step : Step) (env : GoMap) (workspace : String) :
    Option ((Nat × Option String) × ResultHeap) :=
  match ResultMap.get? e.results step.Name with
  | some result =>
    match H.read result with
    | none => none
    | some r => some ((result, none), H.write result { r with Step := step, Duration := elapsed })
  | none =>
    let output := mockTranscript step env workspace
    let r : Result :=
      { Success := true, ExitCode := 0, Output := output, Error := "", Duration := elapsed,
        Step := step }
    let (H1, result) := H.alloc r
    let stepNameLower := ToLower lowerTable step.Name
    if Contains stepNameLower "fail" ||
        Contains stepNameLower "error" then
      some ((result, none),
        H1.write result
          { r with Success := false, ExitCode := 1,
                   Error := "Mock execution failed (simulated)" })
    else
      some ((result, none), H1)

/-! ## Definitions that follow the wording of the specification -/

/-- The trigger set of the dispatch decision, as the specification lists it. -/
def shellTriggers : List String := ["|", ">", "<", "&&", "||", ";", "$"]

/-- The string contains at least one of the triggers as a substring. -/
def containsTrigger (c : String) : Prop := ∃ t ∈ shellTriggers, t.data <:+: c.data

/-- The string is blank: empty, or made of white space only. -/
def isBlank (c : String) : Prop := ∀ ch ∈ c.data, isSpace ch = true

/-- Splits the characters of an environment entry at its first `=`. -/
def splitEntryChars : List Char → Option (List Char × List Char)
  | [] => none
  | c :: t =>
    if c = '=' then
      some ([], t)
    else
      match splitEntryChars t with
      | some (k, v) => some (c :: k, v)
      | none => none

/-- The key and the value of an environment entry `KEY=VALUE`; `none` for an entry
without `=`. -/
def splitEntry (entry : String) : Option (String × String) :=
  match splitEntryChars entry.data with
  | some (k, v) => some (String.mk k, String.mk v)
  | none => none

/-- Last-entry-wins lookup of the variable `k` in an environment list. -/
def lookupEnv (execEnv : List String) (k : String) : Option String :=
  execEnv.foldl
    (fun found entry =>
      match splitEntry entry with
      | some (k', v) => if k' = k then some v else found
      | none => found)
    none

/-- The name contains `word`, a lower-case word, case-insensitively: its lower-cased
form contains `word`. -/
def containsFold (lowerTable : Char → Char) (name word : String) : Prop :=
  word.data <:+: (ToLower lowerTable name).data

/-- The name contains `word`, a lower-case word, written in some letter case of the
letters `A` to `Z`. -/
def containsAnyCase (name word : String) : Prop :=
  ∃ w, w <:+: name.data ∧ w.map asciiLower = word.data

/-- The `exec.Cmd` built for a program with its arguments. -/
def mkCmd (workspace : String) (execEnv : List String) (timeout : Option Int)
    (pa : String × List String) : Cmd :=
  ⟨pa.1, pa.2, workspace, execEnv, timeout⟩

/-- The step with both hook lists emptied. -/
def Step.withoutHooks (step : Step) : Step :=
  { step with OnSuccess := [], OnFailure := [] }

/-! ## Auxiliary definitions for the proofs about `executeSteps` -/

/-- The goroutine holds a token of `sem`: it has sent to the channel and its deferred
receive has not run yet. -/
def Pc.holdsToken : Pc → Bool
  | .holding => true
  | .inExecute _ => true
  | .returned _ => true
  | .appended => true
  | _ => false

/-- The goroutine is inside its call of `Execute`. -/
def Pc.inCall : Pc → Bool
  | .inExecute _ => true
  | _ => false

/-- The goroutine has appended its result. -/
def Pc.collected : Pc → Bool
  | .appended => true
  | .done => true
  | _ => false

/-- The goroutine has called `Execute`. -/
def Pc.called : Pc → Bool
  | .waiting => false
  | .holding => false
  | _ => true

/-- Number of atomic actions the goroutine still has to run. -/
def Pc.remaining : Pc → Nat
  | .waiting => 5
  | .holding => 4
  | .inExecute _ => 3
  | .returned _ => 2
  | .appended => 1
  | .done => 0

/-- Number of `Execute` calls in progress. -/
def PoolState.inProgress (st : PoolState) : Nat :=
  st.tasks.countP (fun t => t.pc.inCall)

/-- Number of goroutines holding a token. -/
def PoolState.holders (st : PoolState) : Nat :=
  st.tasks.countP (fun t => t.pc.holdsToken)

/-- The entries of the map `prepareStepEnv` returns for `step` when the base
environment is the map at address `env` of the heap `h`. -/
def Runner.stepEnv (r : Runner) (h : Heap) (p : Pipeline) (step : Step) (env : Nat) :
    GoMap :=
  (r.prepareStepEnv h p step env).1.read (r.prepareStepEnv h p step env).2

/-- The result the goroutine of `s` hands to `append`: what `Execute` returns on `s`
and its step environment, with a plumbing error turned into a failed result. -/
def Runner.stepResult (r : Runner) (h : Heap) (p : Pipeline) (env : Nat)
    (workspace : String) (s : Step) : Result :=
  collectResult (r.executor.Execute s (r.stepEnv h p s env) workspace) s

/-- The steps for which `executeSteps` launches a goroutine. -/
def Pipeline.eligible (p : Pipeline) : List Step := p.Steps.filter Step.ShouldRun

/-- Successive assignments `m[k] = v` for the entries of `src`, on a map value. -/
def GoMap.merge (m src : GoMap) : GoMap := src.foldl (fun m kv => m.set kv.1 kv.2) m

/-- Upper bound on the number of atomic actions still to run. -/
def poolMeasure (p : Pipeline) (st : PoolState) : Nat :=
  6 * (p.Steps.length - st.i) + (st.tasks.map (fun t => t.pc.remaining)).sum

/-- The invariant of `executeSteps`, for a run started on the heap `h0` with the base
environment at address `env`. -/
structure PoolInv (r : Runner) (p : Pipeline) (env : Nat) (workspace : String)
    (concurrency : Int) (h0 : Heap) (st : PoolState) : Prop where
  i_le : st.i ≤ p.Steps.length
  steps_eq : st.tasks.map Task.step = (p.Steps.take st.i).filter Step.ShouldRun
  sem_eq : st.sem = st.holders
  sem_le : (st.sem : Int) ≤ max concurrency 0
  heap_len : h0.cells.length ≤ st.heap.cells.length
  base_eq : st.heap.read env = h0.read env
  env_ok : ∀ t ∈ st.tasks, ∀ a, t.pc = .inExecute a →
    st.heap.read a = r.stepEnv h0 p t.step env ∧ a < st.heap.cells.length
  res_ok : ∀ t ∈ st.tasks, ∀ x, t.pc = .returned x → x = r.stepResult h0 p env workspace t.step
  results_perm : st.results.Perm
    ((st.tasks.filter (fun t => t.pc.collected)).map
      (fun t => r.stepResult h0 p env workspace t.step))
  calls_perm : st.calls.Perm ((st.tasks.filter (fun t => t.pc.called)).map Task.step)

/-! ## Example values -/

/-- A step with the given name and commands and nothing else set. -/
def exampleStep (name : String) (commands : List String) : Step :=
  { Name := name, Image := "", Commands := commands, Env := none, When := "",
    Timeout := 10, OnSuccess := [], OnFailure := [] }

/-- The pipeline of `TestRunWithFailure` (runner_test.go 63-77). -/
def examplePipeline : Pipeline :=
  { Name := "test-pipeline", Version := "1.0",
    Steps := [exampleStep "success-step" ["echo \"This will succeed\""],
      exampleStep "fail-step" ["echo \"This will fail\""]],
    Env := [], Workspace := "", Concurrency := 0 }

/-- An executor that reports failure for the step named `fail-step`, a plumbing error
for the step named `broken-step`, and success for every other step. -/
def exampleExecutor : Executor :=
  { Execute := fun s _ _ =>
      if s.Name = "broken-step" then .error "cannot start"
      else if s.Name = "fail-step" then
        .ok { Success := false, ExitCode := 1, Output := "", Error := "failed",
              Duration := 0, Step := s }
      else
        .ok { Success := true, ExitCode := 0, Output := "", Error := "",
              Duration := 0, Step := s }
    Setup := fun _ => none
    Teardown := fun _ => none
    Typ := "example" }

/-- A runner over `exampleExecutor` with the default capacity of `DefaultConfig`. -/
def exampleRunner : Runner :=
  { config :=
      { Runner := { Capacity := 10, Timeout := 3600, Workspace := "/tmp/cicd-workspace" }
        Executor := { Typ := "example", Env := [] } }
    executor := exampleExecutor }

/-- A file system on which every path holds `examplePipeline`. -/
def exampleFileSystem : FileSystem :=
  { readFile := fun _ => .ok "", unmarshal := fun _ => .ok examplePipeline }

/-- A complete schedule for two eligible steps in which the second goroutine finishes
first. -/
def exampleSchedule : List Action :=
  [.main, .main, .task 1, .task 1, .task 1, .task 1, .task 1,
    .task 0, .task 0, .task 0, .task 0, .task 0]

/-- A heap holding one empty map, at address 0: the base environment of the examples. -/
def exampleHeap : Heap := ⟨[[]]⟩

/-- The example pipeline with room for two concurrent steps. -/
def examplePipelineTwo : Pipeline := { examplePipeline with Concurrency := 2 }

/-- A schedule after which both goroutines of `examplePipelineTwo` are inside
`Execute`. -/
def exampleBusySchedule : List Action :=
  [.main, .main, .task 0, .task 1, .task 0, .task 1]

/-- The state `exampleBusySchedule` leads to from `poolInit exampleHeap`. -/
def exampleBusyState : PoolState :=
  { i := 2
    tasks := [⟨exampleStep "success-step" ["echo \"This will succeed\""], .inExecute 1⟩,
      ⟨exampleStep "fail-step" ["echo \"This will fail\""], .inExecute 2⟩]
    sem := 2
    results := []
    heap := ⟨[[], [], []]⟩
    calls := [exampleStep "success-step" ["echo \"This will succeed\""],
      exampleStep "fail-step" ["echo \"This will fail\""]] }

/-- A pipeline whose first step makes `exampleExecutor` return a plumbing error. -/
def exampleBrokenPipeline : Pipeline :=
  { examplePipeline with
    Steps := [exampleStep "broken-step" ["true"], exampleStep "success-step" ["true"]] }

/-- The result the runner synthesizes for the first step of `exampleBrokenPipeline`. -/
def exampleBrokenResult : Result :=
  { Success := false, ExitCode := 1, Output := "", Error := "cannot start",
    Duration := 0, Step := exampleStep "broken-step" ["true"] }

/-- A runner whose configuration sets the variables `A`, `B` and `C`. -/
def exampleEnvRunner : Runner :=
  { exampleRunner with
    config :=
      { Runner := { Capacity := 10, Timeout := 3600, Workspace := "/tmp/cicd-workspace" }
        Executor := { Typ := "example", Env := [("A", "cfg"), ("B", "cfg"), ("C", "cfg")] } } }

/-- A pipeline that sets the variables `B` and `C`. -/
def exampleEnvPipeline : Pipeline :=
  { examplePipeline with Env := [("B", "pipe"), ("C", "pipe")] }

/-- A step that sets the variables `C` and `D`. -/
def exampleEnvStep : Step :=
  { exampleStep "env-step" ["echo $C"] with Env := some [("C", "step"), ("D", "step")] }

/-- An operating system on which the program `false` exits with status 1, a program
named `missing` cannot be started, and every other program succeeds and prints its
name; the world state counts the processes run. -/
def exampleOS : OS Nat :=
  { run := fun w cmd =>
      if cmd.Name = "false" then (⟨"", some (.exitError (.exited 1) "exit status 1")⟩, w + 1)
      else if cmd.Name = "missing" then
        (⟨"", some (.other "exec: \"missing\": executable file not found in $PATH")⟩, w + 1)
      else (⟨cmd.Name ++ "\n", none⟩, w + 1)
    environ := fun _ => ["PATH=/usr/bin", "TEST_VAR=inherited"]
    since := fun w0 w1 => w1 - w0 }

/-- A step whose second command fails, with a hook of each kind and a blank hook. -/
def exampleFailingStep : Step :=
  { exampleStep "failing-step" ["echo one", "false", "echo three"] with
    OnSuccess := ["echo ok"], OnFailure := [" ", "echo cleanup"] }

/-- A step whose only command fails and whose only `on_failure` hook is blank. -/
def exampleBlankHookStep : Step :=
  { exampleStep "blank-hook" ["false"] with OnFailure := [" "] }

/-- A step that echoes `TEST_VAR` and sets it itself. -/
def exampleShadowStep : Step :=
  { exampleStep "env-step" ["echo $TEST_VAR"] with Env := some [("TEST_VAR", "step")] }

/-- A caller environment that sets `TEST_VAR` and `CALLER_ONLY`. -/
def exampleCallerEnv : GoMap := [("TEST_VAR", "caller"), ("CALLER_ONLY", "1")]

/-- A file system on which no file can be read. -/
def exampleMissingFileSystem : FileSystem :=
  { readFile := fun path => .error ("open " ++ path ++ ": no such file or directory")
    unmarshal := fun _ => .ok examplePipeline }

/-- A pipeline whose second step has a `when` value that `ShouldRun` rejects. -/
def exampleGatedPipeline : Pipeline :=
  { examplePipeline with
    Steps := [exampleStep "build" ["make"],
      { exampleStep "deploy" ["make deploy"] with When := "manual" },
      { exampleStep "notify" ["echo failed"] with When := "on_failure" }] }

/-- A complete schedule for `exampleGatedPipeline`: three iterations of the loop, then
the two goroutines one after the other. -/
def exampleGatedSchedule : List Action :=
  [.main, .main, .main, .task 0, .task 0, .task 0, .task 0, .task 0,
    .task 1, .task 1, .task 1, .task 1, .task 1]

/-- The state in which `executeSteps` returns on `exampleGatedPipeline` under
`exampleGatedSchedule`. -/
def exampleGatedState : PoolState :=
  { i := 3
    tasks := [⟨exampleStep "build" ["make"], .done⟩,
      ⟨{ exampleStep "notify" ["echo failed"] with When := "on_failure" }, .done⟩]
    sem := 0
    results := [exampleRunner.stepResult exampleHeap exampleGatedPipeline 0 "/tmp/ws"
        (exampleStep "build" ["make"]),
      exampleRunner.stepResult exampleHeap exampleGatedPipeline 0 "/tmp/ws"
        { exampleStep "notify" ["echo failed"] with When := "on_failure" }]
    heap := ⟨[[], [], []]⟩
    calls := [exampleStep "build" ["make"],
      { exampleStep "notify" ["echo failed"] with When := "on_failure" }] }

/-- A step whose only command fails and whose `on_failure` hook uses a redirection and
a variable. -/
def exampleShellHookStep : Step :=
  { exampleStep "shell-hook" ["false"] with OnFailure := ["echo $STATUS > status.txt"] }

/-- A case table that lowers the capital letter I with a dot above (U+0130) to `i`, as
the Unicode tables do, and leaves every other code point as it is. -/
def exampleLowerTable (c : Char) : Char :=
  if c.toNat = 304 then 'i' else c

/-- The step of `TestMockExecutorFailureSimulation` (executor_test.go 92-96). -/
def exampleMockFailStep : Step := exampleStep "test-fail-step" ["echo hello"]

/-- A step whose name contains "error" and not "fail". -/
def exampleMockErrorStep : Step := exampleStep "Deploy-ERROR" ["echo hello"]

/-- A heap holding one template: a successful result with predefined output. -/
def exampleTemplateHeap : ResultHeap :=
  ⟨[{ Success := true, ExitCode := 0, Output := "predefined output", Error := "",
      Duration := 0, Step := exampleStep "" [] }]⟩

/-- A step whose name contains "fail" in capital letters. -/
def exampleMockUpperStep : Step := exampleStep "Build-FAIL" ["make"]

/-- An operating system on which the program `sleep`, started under a context with a
deadline, outlives the deadline and is killed by the context: `cmd.Run` returns an exit
error whose process was ended by a signal. Every other program succeeds silently. -/
def exampleTimeoutOS : OS Nat :=
  { run := fun w cmd =>
      if cmd.Name = "sleep" ∧ cmd.Timeout.isSome = true then
        (⟨"", some (.exitError .signaled "signal: killed")⟩, w + 1)
      else (⟨"", none⟩, w + 1)
    environ := fun _ => ["PATH=/usr/bin"]
    since := fun w0 w1 => w1 - w0 }

/-- A step whose command sleeps for ten seconds under a timeout of one second. -/
def exampleTimeoutStep : Step :=
  { exampleStep "timeout-step" ["sleep 10"] with Timeout := 1 }

/-- The executor `NewMockExecutor()` behind the interface `Executor`. With no template
registered, every call of `Execute` allocates the result it returns, so each call runs
on an empty heap and hands over the object behind the pointer it returns; the mock
executor returns no error, and the remaining cases do not arise. The simulated delay
gives every result the duration 100. -/
def exampleMockExecutor : Executor :=
  { Execute := fun step env workspace =>
      match MockExecutor.Execute exampleLowerTable 100 NewMockExecutor ⟨[]⟩ step env
          workspace with
      | some ((result, none), H) =>
        match H.read result with
        | some r => .ok r
        | none => .error "nil result"
      | some ((_, some err), _) => .error err
      | none => .error "nil pointer dereference"
    Setup := NewMockExecutor.Setup
    Teardown := NewMockExecutor.Teardown
    Typ := NewMockExecutor.Typ }

/-- A runner over the mock executor with the default capacity of `DefaultConfig`. -/
def exampleMockRunner : Runner :=
  { config :=
      { Runner := { Capacity := 10, Timeout := 3600, Workspace := "/tmp/cicd-workspace" }
        Executor := { Typ := "mock", Env := [] } }
    executor := exampleMockExecutor }

/-- The result of the mock executor for the step `fail-step` of `examplePipeline` in the
workspace `/tmp/ws`, written out. -/
def exampleMockFailResult : Result :=
  { Success := false, ExitCode := 1,
    Output := "[MOCK] Executing step: fail-step\n[MOCK] Commands: [echo \"This will fail\"]\n[MOCK] Workspace: /tmp/ws\n[MOCK] Running: echo \"This will fail\"\n[MOCK] ✓ Command completed successfully\n",
    Error := "Mock execution failed (simulated)", Duration := 100,
    Step := exampleStep "fail-step" ["echo \"This will fail\""] }

/-- The result of the mock executor for the step `success-step` of `examplePipeline` in
the workspace `/tmp/ws`, written out. -/
def exampleMockSuccessResult : Result :=
  { Success := true, ExitCode := 0,
    Output := "[MOCK] Executing step: success-step\n[MOCK] Commands: [echo \"This will succeed\"]\n[MOCK] Workspace: /tmp/ws\n[MOCK] Running: echo \"This will succeed\"\n[MOCK] ✓ Command completed successfully\n",
    Error := "", Duration := 100,
    Step := exampleStep "success-step" ["echo \"This will succeed\""] }

/-! ## Theorems -/

/-! ### The verdict of `Run` -/

theorem runVerdict_eq_none_iff (rs : List Result) :
    runVerdict rs = none ↔ ∀ x ∈ rs, x.Success = true := by
  induction rs with
  | nil => simp [runVerdict]
  | cons a t ih =>
    cases hs : a.Success <;> simp [runVerdict, hs, ih]

theorem runVerdict_first_failure (pre : List Result) (x : Result) (post : List Result)
    (hpre : ∀ y ∈ pre, y.Success = true) (hx : x.Success = false) :
    runVerdict (pre ++ x :: post) = some ("pipeline failed at step: " ++ x.Step.Name) := by
  induction pre with
  | nil => simp [runVerdict, hx]
  | cons a t ih =>
    have ha : a.Success = true := hpre a (List.mem_cons_self _ _)
    have ht : ∀ y ∈ t, y.Success = true := fun y hy => hpre y (List.mem_cons_of_mem _ hy)
    simp [runVerdict, ha, ih ht]

/-- C1: when the pipeline loads, setup succeeds and `executeSteps` hands back the result
list `rs`, `Run` returns nil iff every result of `rs` has `Success = true`, and
otherwise returns the error "pipeline failed at step: NAME" where NAME is the step name
of the first result of `rs`, in list order, whose `Success` is false. -/
theorem Run_verdict (r : Runner) (fs : FileSystem) (h : Heap) (path : String)
    (sched : List Action) (p : Pipeline) (rs : List Result)
    (hload : Load fs path = .ok p)
    (hsetup : r.executor.Setup
      (if p.Workspace ≠ "" then p.Workspace else r.config.Runner.Workspace) = none)
    (hexec : r.executeSteps (r.prepareEnv h p).1 p (r.prepareEnv h p).2
      (if p.Workspace ≠ "" then p.Workspace else r.config.Runner.Workspace) sched
        = some (rs, none)) :
    ∃ out, r.Run fs h path sched = some out ∧
      (out.err = none ↔ ∀ x ∈ rs, x.Success = true) ∧
      (∀ pre x post, rs = pre ++ x :: post → (∀ y ∈ pre, y.Success = true) →
        x.Success = false →
        out.err = some ("pipeline failed at step: " ++ x.Step.Name)) := by
  have hrun : ∃ calls, r.Run fs h path sched = some ⟨runVerdict rs, calls⟩ := by
    rcases hpe : r.prepareEnv h p with ⟨h1, env⟩
    rw [hpe] at hexec
    simp only [Runner.Run, hload, hsetup, hpe, hexec]
    exact ⟨_, rfl⟩
  obtain ⟨calls, hrun⟩ := hrun
  refine ⟨⟨runVerdict rs, calls⟩, hrun, runVerdict_eq_none_iff rs, ?_⟩
  intro pre x post hrs hpre hx
  subst hrs
  exact runVerdict_first_failure pre x post hpre hx

/-- Witness of C1: the run of `TestRunWithFailure` in which the failing step finishes
first. -/
theorem Run_verdict_witness :
    ∃ out, exampleRunner.Run exampleFileSystem ⟨[]⟩ "pipeline.yaml" exampleSchedule
        = some out ∧
      (out.err = none ↔
        ∀ x ∈ [collectResult (exampleExecutor.Execute (exampleStep "fail-step"
            ["echo \"This will fail\""]) [] "/tmp/cicd-workspace")
              (exampleStep "fail-step" ["echo \"This will fail\""]),
          collectResult (exampleExecutor.Execute (exampleStep "success-step"
            ["echo \"This will succeed\""]) [] "/tmp/cicd-workspace")
              (exampleStep "success-step" ["echo \"This will succeed\""])],
          x.Success = true) ∧
      (∀ pre x post,
        [collectResult (exampleExecutor.Execute (exampleStep "fail-step"
            ["echo \"This will fail\""]) [] "/tmp/cicd-workspace")
              (exampleStep "fail-step" ["echo \"This will fail\""]),
          collectResult (exampleExecutor.Execute (exampleStep "success-step"
            ["echo \"This will succeed\""]) [] "/tmp/cicd-workspace")
              (exampleStep "success-step" ["echo \"This will succeed\""])]
          = pre ++ x :: post →
        (∀ y ∈ pre, y.Success = true) → x.Success = false →
        out.err = some ("pipeline failed at step: " ++ x.Step.Name)) :=
  Run_verdict exampleRunner exampleFileSystem ⟨[]⟩ "pipeline.yaml" exampleSchedule
    examplePipeline _ rfl (by decide) (by decide)

/-! ### Effective concurrency -/

theorem effectiveConcurrency_pos (pipelineConcurrency capacity : Int) (hcap : 0 < capacity) :
    1 ≤ effectiveConcurrency pipelineConcurrency capacity := by
  unfold effectiveConcurrency
  by_cases h1 : pipelineConcurrency ≤ 0
  · by_cases h2 : (1 : Int) > capacity
    · omega
    · simp only [h1, if_true, h2, if_false]
      omega
  · by_cases h2 : pipelineConcurrency > capacity
    · simp only [h1, if_false, h2, if_true]
      omega
    · simp only [h1, if_false, h2]
      omega

/-- C3: for a capacity greater than zero the pool size computed by `executeSteps` is
`max 1 (min pipeline.concurrency capacity)`, which lies between 1 and the capacity. -/
theorem effectiveConcurrency_clamp (pipelineConcurrency capacity : Int)
    (hcap : 0 < capacity) :
    effectiveConcurrency pipelineConcurrency capacity
        = max 1 (min pipelineConcurrency capacity) ∧
      1 ≤ effectiveConcurrency pipelineConcurrency capacity ∧
      effectiveConcurrency pipelineConcurrency capacity ≤ capacity := by
  unfold effectiveConcurrency
  by_cases h1 : pipelineConcurrency ≤ 0
  · have h2 : ¬ (1 > capacity) := by omega
    simp only [h1, if_true, h2, if_false]
    omega
  · by_cases h2 : pipelineConcurrency > capacity
    · simp only [h1, if_false, h2, if_true]
      omega
    · simp only [h1, if_false, h2]
      omega

/-- Witness of C3: the two examples of the specification, `concurrency = 0` and
`concurrency = 20` under capacity 10. -/
theorem effectiveConcurrency_clamp_witness :
    ((0 : Int) < 10 ∧ effectiveConcurrency 0 10 = 1 ∧ effectiveConcurrency 20 10 = 10) ∧
      (effectiveConcurrency 0 10 = max 1 (min 0 10) ∧
        1 ≤ effectiveConcurrency 0 10 ∧ effectiveConcurrency 0 10 ≤ 10) ∧
      (effectiveConcurrency 20 10 = max 1 (min 20 10) ∧
        1 ≤ effectiveConcurrency 20 10 ∧ effectiveConcurrency 20 10 ≤ 10) :=
  ⟨by decide, effectiveConcurrency_clamp 0 10 (by decide),
    effectiveConcurrency_clamp 20 10 (by decide)⟩

/-! ### Environment layering in the runner -/

theorem GoMap.get?_set (m : GoMap) (k v k' : String) :
    (m.set k v).get? k' = if k = k' then some v else m.get? k' := by
  induction m with
  | nil => simp [GoMap.set, GoMap.get?]
  | cons a t ih =>
    obtain ⟨ka, va⟩ := a
    by_cases h1 : ka = k
    · subst h1
      by_cases h2 : ka = k' <;> simp [GoMap.set, GoMap.get?, h2]
    · by_cases h2 : ka = k'
      · subst h2
        have h3 : ¬ k = ka := fun h => h1 h.symm
        simp [GoMap.set, GoMap.get?, h1, h3]
      · simp [GoMap.set, GoMap.get?, h1, h2, ih]

theorem GoMap.get?_eq_none_iff (m : GoMap) (k : String) :
    m.get? k = none ↔ k ∉ m.keys := by
  induction m with
  | nil => simp [GoMap.get?, GoMap.keys]
  | cons a t ih =>
    obtain ⟨ka, va⟩ := a
    by_cases h1 : ka = k
    · simp [GoMap.get?, GoMap.keys, h1]
    · have h2 : ¬ k = ka := fun h => h1 h.symm
      simp only [GoMap.keys] at ih
      simp [GoMap.get?, GoMap.keys, h1, h2, ih]

theorem Heap.read_eq (h : Heap) (a : Nat) : h.read a = h.cells[a]?.getD [] := by
  simp [Heap.read, List.getD_eq_getElem?_getD]

theorem Heap.length_assign (h : Heap) (a : Nat) (k v : String) :
    (h.assign a k v).cells.length = h.cells.length := by
  simp [Heap.assign]

theorem Heap.read_assign_ne (h : Heap) (a b : Nat) (k v : String) (hab : a ≠ b) :
    (h.assign a k v).read b = h.read b := by
  simp [Heap.read_eq, Heap.assign, List.getElem?_set_ne hab]

theorem Heap.read_assign_self (h : Heap) (a : Nat) (k v : String)
    (ha : a < h.cells.length) :
    (h.assign a k v).read a = (h.read a).set k v := by
  simp [Heap.read_eq, Heap.assign, List.getElem?_set_self ha]

theorem Heap.length_copyInto (h : Heap) (dst : Nat) (src : GoMap) :
    (h.copyInto dst src).cells.length = h.cells.length := by
  induction src generalizing h with
  | nil => rfl
  | cons a t ih =>
    simp only [Heap.copyInto, List.foldl_cons] at ih ⊢
    rw [ih, Heap.length_assign]

theorem Heap.read_copyInto_ne (h : Heap) (dst b : Nat) (src : GoMap) (hb : dst ≠ b) :
    (h.copyInto dst src).read b = h.read b := by
  induction src generalizing h with
  | nil => rfl
  | cons a t ih =>
    simp only [Heap.copyInto, List.foldl_cons] at ih ⊢
    rw [ih, Heap.read_assign_ne h dst b _ _ hb]

theorem Heap.get?_read_copyInto (h : Heap) (dst : Nat) (src : GoMap) (k : String)
    (hdst : dst < h.cells.length) (hsrc : src.WF) :
    ((h.copyInto dst src).read dst).get? k = (src.get? k).or ((h.read dst).get? k) := by
  induction src generalizing h with
  | nil => simp [Heap.copyInto, GoMap.get?]
  | cons a t ih =>
    obtain ⟨ka, va⟩ := a
    have hnd : ka ∉ GoMap.keys t ∧ GoMap.WF t := by
      simpa [GoMap.WF, GoMap.keys] using hsrc
    have hstep := ih (h.assign dst ka va) (by rw [Heap.length_assign]; exact hdst) hnd.2
    simp only [Heap.copyInto, List.foldl_cons] at hstep ⊢
    rw [hstep, Heap.read_assign_self h dst ka va hdst, GoMap.get?_set]
    by_cases h1 : ka = k
    · subst h1
      have hnone : GoMap.get? t ka = none := (GoMap.get?_eq_none_iff t ka).2 hnd.1
      simp [GoMap.get?, hnone]
    · simp [GoMap.get?, h1]

theorem Heap.read_alloc_old (h : Heap) (a : Nat) (ha : a < h.cells.length) :
    h.alloc.1.read a = h.read a := by
  simp [Heap.read_eq, Heap.alloc, List.getElem?_append_left ha]

theorem Heap.read_alloc_new (h : Heap) : h.alloc.1.read h.alloc.2 = [] := by
  simp [Heap.read_eq, Heap.alloc]

theorem Heap.length_alloc (h : Heap) : h.alloc.1.cells.length = h.cells.length + 1 := by
  simp [Heap.alloc]

theorem Runner.prepareEnv_addr (r : Runner) (h : Heap) (p : Pipeline) :
    (r.prepareEnv h p).2 = h.cells.length ∧
      (r.prepareEnv h p).1.cells.length = h.cells.length + 1 := by
  simp [Runner.prepareEnv, Heap.length_copyInto, Heap.alloc]

theorem Runner.prepareEnv_get? (r : Runner) (h : Heap) (p : Pipeline) (k : String)
    (hcfg : r.config.Executor.Env.WF) (hp : p.Env.WF) :
    ((r.prepareEnv h p).1.read (r.prepareEnv h p).2).get? k
      = (p.Env.get? k).or (r.config.Executor.Env.get? k) := by
  have hlt : h.alloc.2 < h.alloc.1.cells.length := by simp [Heap.alloc]
  have h1 := Heap.get?_read_copyInto h.alloc.1 h.alloc.2 r.config.Executor.Env k hlt hcfg
  have h2 := Heap.get?_read_copyInto (h.alloc.1.copyInto h.alloc.2 r.config.Executor.Env)
    h.alloc.2 p.Env k (by rw [Heap.length_copyInto]; exact hlt) hp
  rw [h1, Heap.read_alloc_new] at h2
  simpa [Runner.prepareEnv, GoMap.get?] using h2

theorem Runner.prepareStepEnv_addr (r : Runner) (h : Heap) (p : Pipeline) (step : Step)
    (baseEnv : Nat) :
    (r.prepareStepEnv h p step baseEnv).2 = h.cells.length ∧
      (r.prepareStepEnv h p step baseEnv).1.cells.length = h.cells.length + 1 := by
  cases hs : step.Env <;>
    simp [Runner.prepareStepEnv, hs, Heap.length_copyInto, Heap.alloc]

theorem Runner.prepareStepEnv_frame (r : Runner) (h : Heap) (p : Pipeline) (step : Step)
    (baseEnv a : Nat) (ha : a < h.cells.length) :
    (r.prepareStepEnv h p step baseEnv).1.read a = h.read a := by
  have hne : h.alloc.2 ≠ a := by
    simp only [Heap.alloc]
    omega
  cases hs : step.Env with
  | none =>
    simp only [Runner.prepareStepEnv, hs]
    rw [Heap.read_copyInto_ne _ _ _ _ hne, Heap.read_alloc_old h a ha]
  | some m =>
    simp only [Runner.prepareStepEnv, hs]
    rw [Heap.read_copyInto_ne _ _ _ _ hne, Heap.read_copyInto_ne _ _ _ _ hne,
      Heap.read_alloc_old h a ha]

theorem GoMap.keys_set (m : GoMap) (k v : String) :
    (m.set k v).keys = if k ∈ m.keys then m.keys else m.keys ++ [k] := by
  induction m with
  | nil => simp [GoMap.set, GoMap.keys]
  | cons a t ih =>
    obtain ⟨ka, va⟩ := a
    simp only [GoMap.keys] at ih
    by_cases h1 : ka = k
    · subst h1
      simp [GoMap.set, GoMap.keys]
    · have h2 : ¬ k = ka := fun h => h1 h.symm
      by_cases h3 : k ∈ List.map Prod.fst t
      · simp [GoMap.set, GoMap.keys, h1, h2, h3, ih]
      · simp [GoMap.set, GoMap.keys, h1, h2, h3, ih]

theorem GoMap.WF_set (m : GoMap) (k v : String) (hm : m.WF) : (m.set k v).WF := by
  unfold GoMap.WF at hm ⊢
  rw [GoMap.keys_set]
  by_cases h : k ∈ m.keys
  · simpa [h] using hm
  · simp only [h, if_false]
    exact List.Nodup.append hm (List.nodup_singleton k) (by simpa using h)

theorem Heap.WF_read_assign (h : Heap) (a b : Nat) (k v : String)
    (hb : (h.read b).WF) : ((h.assign a k v).read b).WF := by
  by_cases hab : a = b
  · subst hab
    by_cases ha : a < h.cells.length
    · rw [Heap.read_assign_self h a k v ha]
      exact GoMap.WF_set _ _ _ hb
    · have hr : (h.assign a k v).read a = [] := by
        simp [Heap.read_eq, Heap.assign, List.getElem?_set, ha]
      rw [hr]
      exact List.nodup_nil
  · rw [Heap.read_assign_ne h a b k v hab]
    exact hb

theorem Heap.WF_read_copyInto (h : Heap) (dst b : Nat) (src : GoMap)
    (hb : (h.read b).WF) : ((h.copyInto dst src).read b).WF := by
  induction src generalizing h with
  | nil => exact hb
  | cons a t ih =>
    simp only [Heap.copyInto, List.foldl_cons] at ih ⊢
    exact ih _ (Heap.WF_read_assign h dst b _ _ hb)

theorem Runner.prepareEnv_WF (r : Runner) (h : Heap) (p : Pipeline) :
    ((r.prepareEnv h p).1.read (r.prepareEnv h p).2).WF := by
  simp only [Runner.prepareEnv]
  apply Heap.WF_read_copyInto
  apply Heap.WF_read_copyInto
  rw [Heap.read_alloc_new]
  exact List.nodup_nil

theorem Runner.prepareStepEnv_get? (r : Runner) (h : Heap) (p : Pipeline) (step : Step)
    (baseEnv : Nat) (k : String) (hbase : baseEnv < h.cells.length)
    (hwf : (h.read baseEnv).WF) (hs : ∀ m, step.Env = some m → m.WF) :
    ((r.prepareStepEnv h p step baseEnv).1.read (r.prepareStepEnv h p step baseEnv).2).get? k
      = (step.Env.bind (fun m => m.get? k)).or ((h.read baseEnv).get? k) := by
  have hlt : h.alloc.2 < h.alloc.1.cells.length := by simp [Heap.alloc]
  have hrb : h.alloc.1.read baseEnv = h.read baseEnv := Heap.read_alloc_old h baseEnv hbase
  have h1 := Heap.get?_read_copyInto h.alloc.1 h.alloc.2 (h.alloc.1.read baseEnv) k hlt
    (by rw [hrb]; exact hwf)
  rw [Heap.read_alloc_new, hrb] at h1
  cases hse : step.Env with
  | none =>
    simp only [Runner.prepareStepEnv, hse, hrb]
    rw [h1]
    simp [GoMap.get?]
  | some m =>
    have h2 := Heap.get?_read_copyInto (h.alloc.1.copyInto h.alloc.2 (h.read baseEnv))
      h.alloc.2 m k (by rw [Heap.length_copyInto]; exact hlt) (hs m hse)
    simp only [Runner.prepareStepEnv, hse, hrb]
    rw [h2, h1]
    simp [GoMap.get?]

/-- C9: the map handed to `Execute` for a step, built by `prepareStepEnv` on the result
of `prepareEnv`, maps every key to the step's value if the step defines it, else to the
pipeline's, else to the configuration's, and has no key that none of the three defines;
and `prepareStepEnv` leaves the base map it is given, at any valid address, unchanged
and returns a different map. -/
theorem env_layering (r : Runner) (h : Heap) (p : Pipeline) (step : Step) (k : String)
    (hcfg : r.config.Executor.Env.WF) (hp : p.Env.WF)
    (hs : ∀ m, step.Env = some m → m.WF) :
    ((r.prepareStepEnv (r.prepareEnv h p).1 p step (r.prepareEnv h p).2).1.read
        (r.prepareStepEnv (r.prepareEnv h p).1 p step (r.prepareEnv h p).2).2).get? k
      = (step.Env.bind (fun m => m.get? k)).or
          ((p.Env.get? k).or (r.config.Executor.Env.get? k)) ∧
    (k ∈ ((r.prepareStepEnv (r.prepareEnv h p).1 p step (r.prepareEnv h p).2).1.read
        (r.prepareStepEnv (r.prepareEnv h p).1 p step (r.prepareEnv h p).2).2).keys ↔
      (∃ m, step.Env = some m ∧ k ∈ m.keys) ∨ k ∈ p.Env.keys ∨
        k ∈ r.config.Executor.Env.keys) ∧
    (∀ (h0 : Heap) (baseEnv : Nat), baseEnv < h0.cells.length →
      (r.prepareStepEnv h0 p step baseEnv).1.read baseEnv = h0.read baseEnv ∧
        (r.prepareStepEnv h0 p step baseEnv).2 ≠ baseEnv) := by
  have haddr := Runner.prepareEnv_addr r h p
  have hget := Runner.prepareStepEnv_get? r (r.prepareEnv h p).1 p step (r.prepareEnv h p).2 k
    (by omega) (Runner.prepareEnv_WF r h p) hs
  rw [Runner.prepareEnv_get? r h p k hcfg hp] at hget
  refine ⟨hget, ?_, ?_⟩
  · have hiff := GoMap.get?_eq_none_iff
      ((r.prepareStepEnv (r.prepareEnv h p).1 p step (r.prepareEnv h p).2).1.read
        (r.prepareStepEnv (r.prepareEnv h p).1 p step (r.prepareEnv h p).2).2) k
    rw [hget] at hiff
    have hp' := GoMap.get?_eq_none_iff p.Env k
    have hc' := GoMap.get?_eq_none_iff r.config.Executor.Env k
    rw [← not_iff_not, ← hiff]
    cases hse : step.Env with
    | none =>
      cases h1 : GoMap.get? p.Env k <;> cases h2 : GoMap.get? r.config.Executor.Env k <;>
        simp_all
    | some m =>
      have hm' := GoMap.get?_eq_none_iff m k
      cases h0 : GoMap.get? m k <;> cases h1 : GoMap.get? p.Env k <;>
        cases h2 : GoMap.get? r.config.Executor.Env k <;> simp_all
  · intro h0 baseEnv hb
    refine ⟨Runner.prepareStepEnv_frame r h0 p step baseEnv baseEnv hb, ?_⟩
    have := (Runner.prepareStepEnv_addr r h0 p step baseEnv).1
    omega

/-- Witness of C9: the key `C`, set at all three levels, resolves to the step's value. -/
theorem env_layering_witness :
    (exampleEnvRunner.config.Executor.Env.WF ∧ exampleEnvPipeline.Env.WF ∧
      ∀ m, exampleEnvStep.Env = some m → m.WF) ∧
    (((exampleEnvRunner.prepareStepEnv (exampleEnvRunner.prepareEnv ⟨[]⟩ exampleEnvPipeline).1
          exampleEnvPipeline exampleEnvStep
          (exampleEnvRunner.prepareEnv ⟨[]⟩ exampleEnvPipeline).2).1.read
        (exampleEnvRunner.prepareStepEnv (exampleEnvRunner.prepareEnv ⟨[]⟩ exampleEnvPipeline).1
          exampleEnvPipeline exampleEnvStep
          (exampleEnvRunner.prepareEnv ⟨[]⟩ exampleEnvPipeline).2).2).get? "C"
      = (exampleEnvStep.Env.bind (fun m => m.get? "C")).or
          ((exampleEnvPipeline.Env.get? "C").or
            (exampleEnvRunner.config.Executor.Env.get? "C")) ∧
    ("C" ∈ ((exampleEnvRunner.prepareStepEnv
          (exampleEnvRunner.prepareEnv ⟨[]⟩ exampleEnvPipeline).1
          exampleEnvPipeline exampleEnvStep
          (exampleEnvRunner.prepareEnv ⟨[]⟩ exampleEnvPipeline).2).1.read
        (exampleEnvRunner.prepareStepEnv (exampleEnvRunner.prepareEnv ⟨[]⟩ exampleEnvPipeline).1
          exampleEnvPipeline exampleEnvStep
          (exampleEnvRunner.prepareEnv ⟨[]⟩ exampleEnvPipeline).2).2).keys ↔
      (∃ m, exampleEnvStep.Env = some m ∧ "C" ∈ m.keys) ∨ "C" ∈ exampleEnvPipeline.Env.keys ∨
        "C" ∈ exampleEnvRunner.config.Executor.Env.keys) ∧
    (∀ (h0 : Heap) (baseEnv : Nat), baseEnv < h0.cells.length →
      (exampleEnvRunner.prepareStepEnv h0 exampleEnvPipeline exampleEnvStep baseEnv).1.read
          baseEnv = h0.read baseEnv ∧
        (exampleEnvRunner.prepareStepEnv h0 exampleEnvPipeline exampleEnvStep baseEnv).2
          ≠ baseEnv)) :=
  ⟨⟨by decide, by decide, fun m hm => by cases hm; decide⟩,
    env_layering exampleEnvRunner ⟨[]⟩ exampleEnvPipeline exampleEnvStep "C"
      (by decide) (by decide) (fun m hm => by cases hm; decide)⟩

/-! ### The goroutines of `executeSteps` -/

theorem Heap.read_copyInto_self (h : Heap) (dst : Nat) (src : GoMap)
    (hdst : dst < h.cells.length) :
    (h.copyInto dst src).read dst = GoMap.merge (h.read dst) src := by
  induction src generalizing h with
  | nil => rfl
  | cons a t ih =>
    have hstep := ih (h.assign dst a.1 a.2) (by rw [Heap.length_assign]; exact hdst)
    simp only [Heap.copyInto, GoMap.merge, List.foldl_cons] at hstep ⊢
    rw [hstep, Heap.read_assign_self h dst a.1 a.2 hdst]

theorem Runner.stepEnv_eq (r : Runner) (h : Heap) (p : Pipeline) (step : Step)
    (env : Nat) (henv : env < h.cells.length) :
    r.stepEnv h p step env =
      match step.Env with
      | some m => GoMap.merge (GoMap.merge [] (h.read env)) m
      | none => GoMap.merge [] (h.read env) := by
  have hlt : h.alloc.2 < h.alloc.1.cells.length := by simp [Heap.alloc]
  have hrb : h.alloc.1.read env = h.read env := Heap.read_alloc_old h env henv
  have h1 := Heap.read_copyInto_self h.alloc.1 h.alloc.2 (h.read env) hlt
  rw [Heap.read_alloc_new] at h1
  cases hse : step.Env with
  | none =>
    simp only [Runner.stepEnv, Runner.prepareStepEnv, hse, hrb]
    exact h1
  | some m =>
    have h2 := Heap.read_copyInto_self (h.alloc.1.copyInto h.alloc.2 (h.read env))
      h.alloc.2 m (by rw [Heap.length_copyInto]; exact hlt)
    simp only [Runner.stepEnv, Runner.prepareStepEnv, hse, hrb]
    rw [h2, h1]

theorem Runner.stepEnv_congr (r : Runner) (h1 h2 : Heap) (p : Pipeline) (step : Step)
    (env : Nat) (henv1 : env < h1.cells.length) (henv2 : env < h2.cells.length)
    (hread : h1.read env = h2.read env) :
    r.stepEnv h1 p step env = r.stepEnv h2 p step env := by
  rw [Runner.stepEnv_eq r h1 p step env henv1, Runner.stepEnv_eq r h2 p step env henv2,
    hread]

theorem tasks_split (ts : List Task) (j : Nat) (t : Task) (hj : ts[j]? = some t) :
    ∃ l1 l2, ts = l1 ++ t :: l2 ∧ ∀ t', ts.set j t' = l1 ++ t' :: l2 := by
  induction ts generalizing j with
  | nil => simp at hj
  | cons a rest ih =>
    cases j with
    | zero =>
      simp only [List.getElem?_cons_zero, Option.some.injEq] at hj
      subst hj
      exact ⟨[], rest, rfl, fun _ => rfl⟩
    | succ n =>
      simp only [List.getElem?_cons_succ] at hj
      obtain ⟨l1, l2, hts, hset⟩ := ih n hj
      refine ⟨a :: l1, l2, by rw [hts]; rfl, fun t' => ?_⟩
      simp only [List.set_cons_succ, hset, List.cons_append]

theorem poolInit_inv (r : Runner) (p : Pipeline) (env : Nat) (workspace : String)
    (concurrency : Int) (h0 : Heap) :
    PoolInv r p env workspace concurrency h0 (poolInit h0) where
  i_le := Nat.zero_le _
  steps_eq := by simp [poolInit]
  sem_eq := by simp [poolInit, PoolState.holders]
  sem_le := by simp [poolInit]
  heap_len := le_refl _
  base_eq := rfl
  env_ok := by simp [poolInit]
  res_ok := by simp [poolInit]
  results_perm := by simp [poolInit]
  calls_perm := by simp [poolInit]

theorem poolStep_main_inv (r : Runner) (p : Pipeline) (env : Nat) (workspace : String)
    (concurrency : Int) (h0 : Heap) (st st' : PoolState)
    (hinv : PoolInv r p env workspace concurrency h0 st)
    (hstep : poolStep r p env workspace concurrency st .main = some st') :
    PoolInv r p env workspace concurrency h0 st' := by
  unfold poolStep at hstep
  cases hs : p.Steps[st.i]? with
  | none => simp [hs] at hstep
  | some step =>
    have hlt : st.i < p.Steps.length := by
      rcases List.getElem?_eq_some.1 hs with ⟨hlt, _⟩
      exact hlt
    have htake : p.Steps.take (st.i + 1) = p.Steps.take st.i ++ [step] := by
      rw [List.take_succ, hs]
      rfl
    by_cases hrun : step.ShouldRun = true
    · simp only [hs, hrun, Bool.not_true, Bool.false_eq_true, if_false,
        Option.some.injEq] at hstep
      subst hstep
      exact
        { i_le := hlt
          steps_eq := by simp [htake, List.filter_append, hrun, hinv.steps_eq]
          sem_eq := by
            simp [PoolState.holders, List.countP_append, Pc.holdsToken]
            exact hinv.sem_eq
          sem_le := hinv.sem_le
          heap_len := hinv.heap_len
          base_eq := hinv.base_eq
          env_ok := by
            intro t ht a ha
            simp only [List.mem_append, List.mem_singleton] at ht
            rcases ht with ht | ht
            · exact hinv.env_ok t ht a ha
            · subst ht
              simp at ha
          res_ok := by
            intro t ht x hx
            simp only [List.mem_append, List.mem_singleton] at ht
            rcases ht with ht | ht
            · exact hinv.res_ok t ht x hx
            · subst ht
              simp at hx
          results_perm := by
            simp only [List.filter_append, List.map_append]
            simpa [Pc.collected] using hinv.results_perm
          calls_perm := by
            simp only [List.filter_append, List.map_append]
            simpa [Pc.called] using hinv.calls_perm }
    · simp only [hs, hrun, Bool.not_false, if_true, Option.some.injEq] at hstep
      subst hstep
      exact
        { i_le := hlt
          steps_eq := by simp [htake, List.filter_append, hrun, hinv.steps_eq]
          sem_eq := hinv.sem_eq
          sem_le := hinv.sem_le
          heap_len := hinv.heap_len
          base_eq := hinv.base_eq
          env_ok := hinv.env_ok
          res_ok := hinv.res_ok
          results_perm := hinv.results_perm
          calls_perm := hinv.calls_perm }

theorem forall_mem_replace {α : Type} (P : α → Prop) (l1 l2 : List α) (t t' : α)
    (hall : ∀ x ∈ l1 ++ t :: l2, P x) (ht' : P t') : ∀ x ∈ l1 ++ t' :: l2, P x := by
  intro x hx
  simp only [List.mem_append, List.mem_cons] at hx
  rcases hx with hx | hx | hx
  · exact hall x (by simp [hx])
  · subst hx
    exact ht'
  · exact hall x (by simp [hx])

theorem poolStep_task_inv (r : Runner) (p : Pipeline) (env : Nat) (workspace : String)
    (concurrency : Int) (h0 : Heap) (st st' : PoolState) (j : Nat)
    (henv : env < h0.cells.length)
    (hinv : PoolInv r p env workspace concurrency h0 st)
    (hstep : poolStep r p env workspace concurrency st (.task j) = some st') :
    PoolInv r p env workspace concurrency h0 st' := by
  obtain ⟨i, tasks, sem, results, heap, calls⟩ := st
  unfold poolStep at hstep
  cases ht : tasks[j]? with
  | none => simp [ht] at hstep
  | some t =>
    obtain ⟨l1, l2, hts, hset⟩ := tasks_split tasks j t ht
    obtain ⟨step, pc⟩ := t
    obtain ⟨h_i, h_steps, h_sem, h_le, h_len, h_base, h_env, h_res, h_perm, h_calls⟩ := hinv
    simp only [PoolState.holders] at h_sem
    dsimp only at h_i h_steps h_le h_len h_base h_env h_res h_perm h_calls
    simp only [ht, hset] at hstep
    subst hts
    cases pc with
    | waiting =>
      by_cases hc : (sem : Int) < concurrency
      · simp only [hc, if_true, Option.some.injEq] at hstep
        subst hstep
        exact
          { i_le := h_i
            steps_eq := by simpa using h_steps
            sem_eq := by
              simp [PoolState.holders, List.countP_append, List.countP_cons, Pc.holdsToken]
                at h_sem ⊢
              omega
            sem_le := by
              simp only [Nat.cast_add, Nat.cast_one]
              omega
            heap_len := h_len
            base_eq := h_base
            env_ok := by
              intro t ht a ha
              simp only [List.mem_append, List.mem_cons] at ht
              rcases ht with ht | ht | ht
              · exact h_env t (by simp [ht]) a ha
              · subst ht
                simp at ha
              · exact h_env t (by simp [ht]) a ha
            res_ok := by
              intro t ht x hx
              simp only [List.mem_append, List.mem_cons] at ht
              rcases ht with ht | ht | ht
              · exact h_res t (by simp [ht]) x hx
              · subst ht
                simp at hx
              · exact h_res t (by simp [ht]) x hx
            results_perm := by
              simpa [List.filter_append, List.filter_cons, Pc.collected] using h_perm
            calls_perm := by
              simpa [List.filter_append, List.filter_cons, Pc.called] using h_calls }
      · simp [hc] at hstep
    | holding =>
      simp only [Option.some.injEq] at hstep
      subst hstep
      have haddr := Runner.prepareStepEnv_addr r heap p step env
      have hvalid : env < heap.cells.length := lt_of_lt_of_le henv h_len
      exact
        { i_le := h_i
          steps_eq := by simpa using h_steps
          sem_eq := by
            simpa [PoolState.holders, List.countP_append, List.countP_cons, Pc.holdsToken]
              using h_sem
          sem_le := h_le
          heap_len := by
            simp only [haddr.2]
            exact Nat.le_succ_of_le h_len
          base_eq := by
            simp only
            rw [Runner.prepareStepEnv_frame r heap p step env env hvalid]
            exact h_base
          env_ok := by
            refine forall_mem_replace
              (fun t => ∀ a, t.pc = .inExecute a →
                (r.prepareStepEnv heap p step env).1.read a = r.stepEnv h0 p t.step env ∧
                  a < (r.prepareStepEnv heap p step env).1.cells.length)
              l1 l2 ⟨step, .holding⟩ _ ?_ ?_
            · intro t ht a ha
              have hold := h_env t ht a ha
              rw [Runner.prepareStepEnv_frame r heap p step env a hold.2, haddr.2]
              exact ⟨hold.1, Nat.lt_succ_of_lt hold.2⟩
            · intro a ha
              simp only [Pc.inExecute.injEq] at ha
              subst ha
              refine ⟨?_, ?_⟩
              · exact Runner.stepEnv_congr r heap h0 p step env hvalid henv h_base
              · rw [haddr.2, haddr.1]
                exact Nat.lt_succ_self _
          res_ok := by
            refine forall_mem_replace
              (fun t => ∀ x, t.pc = .returned x → x = r.stepResult h0 p env workspace t.step)
              l1 l2 ⟨step, .holding⟩ _ h_res ?_
            intro x hx
            simp at hx
          results_perm := by
            simpa [List.filter_append, List.filter_cons, Pc.collected] using h_perm
          calls_perm := by
            simp only [List.filter_append, List.filter_cons, Pc.called, List.map_append,
              if_true, List.map_cons, Bool.false_eq_true, if_false] at h_calls ⊢
            exact (List.perm_append_singleton _ _).trans
              ((List.Perm.cons _ h_calls).trans List.perm_middle.symm) }
    | inExecute a =>
      simp only [Option.some.injEq] at hstep
      subst hstep
      have hthis := h_env ⟨step, .inExecute a⟩ (by simp) a rfl
      exact
        { i_le := h_i
          steps_eq := by simpa using h_steps
          sem_eq := by
            simpa [PoolState.holders, List.countP_append, List.countP_cons, Pc.holdsToken]
              using h_sem
          sem_le := h_le
          heap_len := h_len
          base_eq := h_base
          env_ok := by
            refine forall_mem_replace
              (fun t => ∀ a, t.pc = .inExecute a →
                heap.read a = r.stepEnv h0 p t.step env ∧ a < heap.cells.length)
              l1 l2 ⟨step, .inExecute a⟩ _ h_env ?_
            intro b hb
            simp at hb
          res_ok := by
            refine forall_mem_replace
              (fun t => ∀ x, t.pc = .returned x → x = r.stepResult h0 p env workspace t.step)
              l1 l2 ⟨step, .inExecute a⟩ _ h_res ?_
            intro x hx
            simp only [Pc.returned.injEq] at hx
            subst hx
            simp only at hthis
            simp only [Runner.stepResult, hthis.1]
          results_perm := by
            simpa [List.filter_append, List.filter_cons, Pc.collected] using h_perm
          calls_perm := by
            simpa [List.filter_append, List.filter_cons, Pc.called] using h_calls }
    | returned x =>
      simp only [Option.some.injEq] at hstep
      subst hstep
      have hx := h_res ⟨step, .returned x⟩ (by simp) x rfl
      exact
        { i_le := h_i
          steps_eq := by simpa using h_steps
          sem_eq := by
            simpa [PoolState.holders, List.countP_append, List.countP_cons, Pc.holdsToken]
              using h_sem
          sem_le := h_le
          heap_len := h_len
          base_eq := h_base
          env_ok := by
            refine forall_mem_replace
              (fun t => ∀ a, t.pc = .inExecute a →
                heap.read a = r.stepEnv h0 p t.step env ∧ a < heap.cells.length)
              l1 l2 ⟨step, .returned x⟩ _ h_env ?_
            intro b hb
            simp at hb
          res_ok := by
            refine forall_mem_replace
              (fun t => ∀ x, t.pc = .returned x → x = r.stepResult h0 p env workspace t.step)
              l1 l2 ⟨step, .returned x⟩ _ h_res ?_
            intro y hy
            simp at hy
          results_perm := by
            simp only [List.filter_append, List.filter_cons, Pc.collected, List.map_append,
              if_true, List.map_cons, Bool.false_eq_true, if_false] at h_perm ⊢
            rw [hx]
            exact (List.perm_append_singleton _ _).trans
              ((List.Perm.cons _ h_perm).trans List.perm_middle.symm)
          calls_perm := by
            simpa [List.filter_append, List.filter_cons, Pc.called] using h_calls }
    | appended =>
      simp only [Option.some.injEq] at hstep
      subst hstep
      exact
        { i_le := h_i
          steps_eq := by simpa using h_steps
          sem_eq := by
            simp [PoolState.holders, List.countP_append, List.countP_cons, Pc.holdsToken]
              at h_sem ⊢
            omega
          sem_le := by
            simp only at h_le ⊢
            omega
          heap_len := h_len
          base_eq := h_base
          env_ok := by
            refine forall_mem_replace
              (fun t => ∀ a, t.pc = .inExecute a →
                heap.read a = r.stepEnv h0 p t.step env ∧ a < heap.cells.length)
              l1 l2 ⟨step, .appended⟩ _ h_env ?_
            intro b hb
            simp at hb
          res_ok := by
            refine forall_mem_replace
              (fun t => ∀ x, t.pc = .returned x → x = r.stepResult h0 p env workspace t.step)
              l1 l2 ⟨step, .appended⟩ _ h_res ?_
            intro y hy
            simp at hy
          results_perm := by
            simpa [List.filter_append, List.filter_cons, Pc.collected] using h_perm
          calls_perm := by
            simpa [List.filter_append, List.filter_cons, Pc.called] using h_calls }
    | done => simp at hstep

theorem poolStep_inv (r : Runner) (p : Pipeline) (env : Nat) (workspace : String)
    (concurrency : Int) (h0 : Heap) (st st' : PoolState) (a : Action)
    (henv : env < h0.cells.length)
    (hinv : PoolInv r p env workspace concurrency h0 st)
    (hstep : poolStep r p env workspace concurrency st a = some st') :
    PoolInv r p env workspace concurrency h0 st' := by
  cases a with
  | main => exact poolStep_main_inv r p env workspace concurrency h0 st st' hinv hstep
  | task j => exact poolStep_task_inv r p env workspace concurrency h0 st st' j henv hinv hstep

theorem poolRun_inv (r : Runner) (p : Pipeline) (env : Nat) (workspace : String)
    (concurrency : Int) (h0 : Heap) (sched : List Action) (st st' : PoolState)
    (henv : env < h0.cells.length)
    (hinv : PoolInv r p env workspace concurrency h0 st)
    (hrun : poolRun r p env workspace concurrency st sched = some st') :
    PoolInv r p env workspace concurrency h0 st' := by
  induction sched generalizing st with
  | nil =>
    simp only [poolRun, Option.some.injEq] at hrun
    subst hrun
    exact hinv
  | cons a rest ih =>
    simp only [poolRun] at hrun
    cases hs : poolStep r p env workspace concurrency st a with
    | none => simp [hs] at hrun
    | some st1 =>
      simp only [hs] at hrun
      exact ih st1 (poolStep_inv r p env workspace concurrency h0 st st1 a henv hinv hs) hrun

theorem poolRun_append (r : Runner) (p : Pipeline) (env : Nat) (workspace : String)
    (concurrency : Int) (s1 s2 : List Action) (st : PoolState) :
    poolRun r p env workspace concurrency st (s1 ++ s2)
      = (poolRun r p env workspace concurrency st s1).bind
          (fun st1 => poolRun r p env workspace concurrency st1 s2) := by
  induction s1 generalizing st with
  | nil => rfl
  | cons a rest ih =>
    simp only [List.cons_append, poolRun]
    cases hs : poolStep r p env workspace concurrency st a with
    | none => rfl
    | some st1 => exact ih st1

theorem finished_results (r : Runner) (p : Pipeline) (env : Nat) (workspace : String)
    (concurrency : Int) (h0 : Heap) (st : PoolState)
    (hinv : PoolInv r p env workspace concurrency h0 st)
    (hfin : st.finished p = true) :
    st.results.Perm (p.eligible.map (r.stepResult h0 p env workspace)) ∧
      st.calls.Perm p.eligible ∧ st.sem = 0 := by
  simp only [PoolState.finished, Bool.and_eq_true, decide_eq_true_eq, List.all_eq_true] at hfin
  obtain ⟨hi, hdone⟩ := hfin
  have hsteps : st.tasks.map Task.step = p.eligible := by
    rw [hinv.steps_eq, hi, List.take_length]
    rfl
  have hcol : st.tasks.filter (fun t => t.pc.collected) = st.tasks := by
    rw [List.filter_eq_self]
    intro t ht
    rw [hdone t ht]
    rfl
  have hcal : st.tasks.filter (fun t => t.pc.called) = st.tasks := by
    rw [List.filter_eq_self]
    intro t ht
    rw [hdone t ht]
    rfl
  have hhold : st.tasks.countP (fun t => t.pc.holdsToken) = 0 := by
    rw [List.countP_eq_zero]
    intro t ht
    rw [hdone t ht]
    simp [Pc.holdsToken]
  refine ⟨?_, ?_, ?_⟩
  · have hperm := hinv.results_perm
    rw [hcol] at hperm
    rw [← hsteps, List.map_map]
    exact hperm
  · have hperm := hinv.calls_perm
    rw [hcal, hsteps] at hperm
    exact hperm
  · rw [hinv.sem_eq]
    exact hhold

theorem poolStep_measure (r : Runner) (p : Pipeline) (env : Nat) (workspace : String)
    (concurrency : Int) (st st' : PoolState) (a : Action)
    (hstep : poolStep r p env workspace concurrency st a = some st') :
    poolMeasure p st' < poolMeasure p st := by
  obtain ⟨i, tasks, sem, results, heap, calls⟩ := st
  cases a with
  | main =>
    unfold poolStep at hstep
    cases hs : p.Steps[i]? with
    | none => simp [hs] at hstep
    | some step =>
      have hlt : i < p.Steps.length := by
        rcases List.getElem?_eq_some.1 hs with ⟨hlt, _⟩
        exact hlt
      by_cases hrun : step.ShouldRun = true
      · simp only [hs, hrun, Bool.not_true, Bool.false_eq_true, if_false,
          Option.some.injEq] at hstep
        subst hstep
        simp only [poolMeasure, List.map_append, List.sum_append, List.map_cons,
          List.map_nil, List.sum_cons, List.sum_nil, Pc.remaining]
        omega
      · simp only [hs, hrun, Bool.not_false, if_true, Option.some.injEq] at hstep
        subst hstep
        simp only [poolMeasure]
        omega
  | task j =>
    unfold poolStep at hstep
    cases ht : tasks[j]? with
    | none => simp [ht] at hstep
    | some t =>
      obtain ⟨l1, l2, hts, hset⟩ := tasks_split tasks j t ht
      obtain ⟨step, pc⟩ := t
      simp only [ht, hset] at hstep
      subst hts
      cases pc with
      | waiting =>
        by_cases hc : (sem : Int) < concurrency
        · simp only [hc, if_true, Option.some.injEq] at hstep
          subst hstep
          simp only [poolMeasure, List.map_append, List.sum_append, List.map_cons,
            List.sum_cons, Pc.remaining]
          omega
        · simp [hc] at hstep
      | done => simp at hstep
      | holding =>
        simp only [Option.some.injEq] at hstep
        subst hstep
        simp only [poolMeasure, List.map_append, List.sum_append, List.map_cons,
          List.sum_cons, Pc.remaining]
        omega
      | inExecute b =>
        simp only [Option.some.injEq] at hstep
        subst hstep
        simp only [poolMeasure, List.map_append, List.sum_append, List.map_cons,
          List.sum_cons, Pc.remaining]
        omega
      | returned x =>
        simp only [Option.some.injEq] at hstep
        subst hstep
        simp only [poolMeasure, List.map_append, List.sum_append, List.map_cons,
          List.sum_cons, Pc.remaining]
        omega
      | appended =>
        simp only [Option.some.injEq] at hstep
        subst hstep
        simp only [poolMeasure, List.map_append, List.sum_append, List.map_cons,
          List.sum_cons, Pc.remaining]
        omega

theorem poolStep_progress (r : Runner) (p : Pipeline) (env : Nat) (workspace : String)
    (concurrency : Int) (h0 : Heap) (st : PoolState) (hc : 1 ≤ concurrency)
    (hinv : PoolInv r p env workspace concurrency h0 st)
    (hfin : st.finished p = false) :
    ∃ a st', poolStep r p env workspace concurrency st a = some st' := by
  by_cases hi : st.i < p.Steps.length
  · refine ⟨.main, ?_⟩
    have hs : p.Steps[st.i]? = some (p.Steps[st.i]) := List.getElem?_eq_getElem hi
    unfold poolStep
    simp only [hs]
    by_cases hrun : (p.Steps[st.i]).ShouldRun = true
    · simp [hrun]
    · simp [hrun]
  · have hieq : st.i = p.Steps.length := le_antisymm hinv.i_le (not_lt.1 hi)
    have hnot : ∃ t ∈ st.tasks, t.pc ≠ .done := by
      by_contra hcon
      have hall : ∀ t ∈ st.tasks, t.pc = .done := by
        intro t ht
        by_contra hne
        exact hcon ⟨t, ht, hne⟩
      have : st.finished p = true := by
        simp only [PoolState.finished, Bool.and_eq_true, decide_eq_true_eq,
          List.all_eq_true]
        exact ⟨hieq, hall⟩
      rw [this] at hfin
      exact Bool.noConfusion hfin
    by_cases hex : ∃ t ∈ st.tasks, t.pc.holdsToken = true
    · obtain ⟨t, ht, hpc⟩ := hex
      obtain ⟨j, hj⟩ := List.mem_iff_getElem?.1 ht
      refine ⟨.task j, ?_⟩
      unfold poolStep
      obtain ⟨step, pc⟩ := t
      cases pc <;> simp [hj, Pc.holdsToken] at hpc ⊢
    · obtain ⟨t, ht, hpc⟩ := hnot
      have hzero : st.tasks.countP (fun t => t.pc.holdsToken) = 0 := by
        rw [List.countP_eq_zero]
        intro x hx hxp
        exact hex ⟨x, hx, hxp⟩
      have hsem : st.sem = 0 := by
        rw [hinv.sem_eq]
        exact hzero
      have hwait : t.pc = .waiting := by
        have hnh : ¬ t.pc.holdsToken = true := fun h => hex ⟨t, ht, h⟩
        obtain ⟨step, pc⟩ := t
        cases pc <;> simp [Pc.holdsToken] at hnh hpc ⊢
      obtain ⟨j, hj⟩ := List.mem_iff_getElem?.1 ht
      refine ⟨.task j, ?_⟩
      unfold poolStep
      have hlt : ((st.sem : Nat) : Int) < concurrency := by
        rw [hsem]
        simp only [Nat.cast_zero]
        omega
      simp [hj, hwait, hlt]

theorem poolRun_complete (r : Runner) (p : Pipeline) (env : Nat) (workspace : String)
    (concurrency : Int) (h0 : Heap) (hc : 1 ≤ concurrency) (henv : env < h0.cells.length)
    (n : Nat) (st : PoolState) (hn : poolMeasure p st ≤ n)
    (hinv : PoolInv r p env workspace concurrency h0 st) :
    ∃ more st', poolRun r p env workspace concurrency st more = some st' ∧
      st'.finished p = true := by
  induction n generalizing st with
  | zero =>
    cases hfin : st.finished p with
    | true => exact ⟨[], st, rfl, hfin⟩
    | false =>
      obtain ⟨a, st1, hs⟩ := poolStep_progress r p env workspace concurrency h0 st hc hinv hfin
      have := poolStep_measure r p env workspace concurrency st st1 a hs
      omega
  | succ k ih =>
    cases hfin : st.finished p with
    | true => exact ⟨[], st, rfl, hfin⟩
    | false =>
      obtain ⟨a, st1, hs⟩ := poolStep_progress r p env workspace concurrency h0 st hc hinv hfin
      have hm := poolStep_measure r p env workspace concurrency st st1 a hs
      obtain ⟨more, st', hrun, hf⟩ := ih st1 (by omega)
        (poolStep_inv r p env workspace concurrency h0 st st1 a henv hinv hs)
      refine ⟨a :: more, st', ?_, hf⟩
      simp only [poolRun, hs]
      exact hrun

theorem Runner.executeSteps_eq_some (r : Runner) (h : Heap) (p : Pipeline) (env : Nat)
    (workspace : String) (sched : List Action) (rs : List Result) (err : Option String)
    (hexec : r.executeSteps h p env workspace sched = some (rs, err)) :
    err = none ∧ ∃ st,
      poolRun r p env workspace (effectiveConcurrency p.Concurrency r.config.Runner.Capacity)
        (poolInit h) sched = some st ∧ st.finished p = true ∧ st.results = rs := by
  simp only [Runner.executeSteps, Runner.executeStepsFinal] at hexec
  cases hrun : poolRun r p env workspace
      (effectiveConcurrency p.Concurrency r.config.Runner.Capacity) (poolInit h) sched with
  | none => simp [hrun] at hexec
  | some st =>
    simp only [hrun] at hexec
    cases hfin : st.finished p with
    | false => simp [hfin] at hexec
    | true =>
      simp only [hfin, if_true, Option.map_some', Option.some.injEq, Prod.mk.injEq] at hexec
      exact ⟨hexec.2.symm, st, rfl, hfin, hexec.1⟩

theorem Runner.executeSteps_perm (r : Runner) (h : Heap) (p : Pipeline) (env : Nat)
    (workspace : String) (henv : env < h.cells.length) (sched : List Action)
    (rs : List Result) (err : Option String)
    (hexec : r.executeSteps h p env workspace sched = some (rs, err)) :
    err = none ∧ rs.Perm (p.eligible.map (r.stepResult h p env workspace)) := by
  obtain ⟨herr, st, hrun, hfin, hrs⟩ :=
    Runner.executeSteps_eq_some r h p env workspace sched rs err hexec
  have hinv := poolRun_inv r p env workspace _ h sched _ st henv
    (poolInit_inv r p env workspace _ h) hrun
  rw [← hrs]
  exact ⟨herr, (finished_results r p env workspace _ h st hinv hfin).1⟩

theorem Runner.executeSteps_extend (r : Runner) (h : Heap) (p : Pipeline) (env : Nat)
    (workspace : String) (hcap : 0 < r.config.Runner.Capacity) (henv : env < h.cells.length)
    (sched : List Action) (st : PoolState)
    (hrun : poolRun r p env workspace
      (effectiveConcurrency p.Concurrency r.config.Runner.Capacity) (poolInit h) sched
        = some st) :
    ∃ more rs, r.executeSteps h p env workspace (sched ++ more) = some (rs, none) := by
  have hc := effectiveConcurrency_pos p.Concurrency r.config.Runner.Capacity hcap
  have hinv := poolRun_inv r p env workspace _ h sched _ st henv
    (poolInit_inv r p env workspace _ h) hrun
  obtain ⟨more, st', hmore, hfin⟩ :=
    poolRun_complete r p env workspace _ h hc henv _ st (le_refl _) hinv
  refine ⟨more, st'.results, ?_⟩
  have hall : poolRun r p env workspace
      (effectiveConcurrency p.Concurrency r.config.Runner.Capacity) (poolInit h)
        (sched ++ more) = some st' := by
    rw [poolRun_append, hrun]
    exact hmore
  simp only [Runner.executeSteps, Runner.executeStepsFinal, hall, hfin, if_true,
    Option.map_some']

/-- C2: under any schedule `executeSteps` returns a nil error and a list that is a
permutation of the per-step results of the steps whose `ShouldRun()` is true, in pipeline
order: for each such step the very `Result` its `Execute` call returned, on the map
`prepareStepEnv` built for the step, or, when the call returned a plumbing error, the failed
`Result` made from that error; so the list has one entry for each such step and none for
any other, every returned `Result` is in it whatever it and the others say, and every
entry comes from an eligible step; and every partial execution can be run on to the
return of `executeSteps`. -/
theorem executeSteps_collects (r : Runner) (h : Heap) (p : Pipeline) (env : Nat)
    (workspace : String) (hcap : 0 < r.config.Runner.Capacity)
    (henv : env < h.cells.length) :
    (∀ sched rs err, r.executeSteps h p env workspace sched = some (rs, err) →
      err = none ∧
      rs.Perm ((p.Steps.filter Step.ShouldRun).map (fun s =>
        match r.executor.Execute s
            ((r.prepareStepEnv h p s env).1.read (r.prepareStepEnv h p s env).2)
            workspace with
        | .ok result => result
        | .error e =>
          { Success := false, ExitCode := 1, Output := "", Error := e, Duration := 0,
            Step := s })) ∧
      rs.length = (p.Steps.filter Step.ShouldRun).length ∧
      (∀ s ∈ p.Steps, s.ShouldRun = true → ∀ result,
        r.executor.Execute s
            ((r.prepareStepEnv h p s env).1.read (r.prepareStepEnv h p s env).2)
            workspace = .ok result →
          result ∈ rs) ∧
      (∀ s ∈ p.Steps, s.ShouldRun = true → ∀ e,
        r.executor.Execute s
            ((r.prepareStepEnv h p s env).1.read (r.prepareStepEnv h p s env).2)
            workspace = .error e →
          (⟨false, 1, "", e, 0, s⟩ : Result) ∈ rs) ∧
      (∀ x ∈ rs, ∃ s ∈ p.Steps, s.ShouldRun = true ∧
        (r.executor.Execute s
            ((r.prepareStepEnv h p s env).1.read (r.prepareStepEnv h p s env).2)
            workspace = .ok x ∨
          ∃ e, r.executor.Execute s
              ((r.prepareStepEnv h p s env).1.read (r.prepareStepEnv h p s env).2)
              workspace = .error e ∧
            x = ⟨false, 1, "", e, 0, s⟩))) ∧
    (∀ sched st,
      poolRun r p env workspace
        (effectiveConcurrency p.Concurrency r.config.Runner.Capacity) (poolInit h) sched
          = some st →
      ∃ more rs, r.executeSteps h p env workspace (sched ++ more) = some (rs, none)) := by
  refine ⟨?_, fun sched st hrun =>
    Runner.executeSteps_extend r h p env workspace hcap henv sched st hrun⟩
  intro sched rs err hexec
  obtain ⟨herr, hperm⟩ := Runner.executeSteps_perm r h p env workspace henv sched rs err hexec
  have hfun : ∀ s, r.stepResult h p env workspace s =
      (match r.executor.Execute s
          ((r.prepareStepEnv h p s env).1.read (r.prepareStepEnv h p s env).2)
          workspace with
      | .ok result => result
      | .error e =>
        { Success := false, ExitCode := 1, Output := "", Error := e, Duration := 0,
          Step := s }) := by
    intro s
    simp only [Runner.stepResult, Runner.stepEnv, collectResult]
  have hperm2 : rs.Perm ((p.Steps.filter Step.ShouldRun).map (fun s =>
      match r.executor.Execute s
          ((r.prepareStepEnv h p s env).1.read (r.prepareStepEnv h p s env).2)
          workspace with
      | .ok result => result
      | .error e =>
        { Success := false, ExitCode := 1, Output := "", Error := e, Duration := 0,
          Step := s })) := by
    have heq : (p.Steps.filter Step.ShouldRun).map (r.stepResult h p env workspace) =
        (p.Steps.filter Step.ShouldRun).map (fun s =>
          match r.executor.Execute s
              ((r.prepareStepEnv h p s env).1.read (r.prepareStepEnv h p s env).2)
              workspace with
          | .ok result => result
          | .error e =>
            { Success := false, ExitCode := 1, Output := "", Error := e, Duration := 0,
              Step := s }) :=
      List.map_congr_left (fun s _ => hfun s)
    rw [← heq]
    exact hperm
  refine ⟨herr, hperm2, ?_, ?_, ?_, ?_⟩
  · rw [hperm2.length_eq, List.length_map]
  · intro s hs hrun result hres
    rw [hperm.mem_iff]
    refine List.mem_map.2 ⟨s, List.mem_filter.2 ⟨hs, hrun⟩, ?_⟩
    rw [hfun s, hres]
  · intro s hs hrun e hres
    rw [hperm.mem_iff]
    refine List.mem_map.2 ⟨s, List.mem_filter.2 ⟨hs, hrun⟩, ?_⟩
    rw [hfun s, hres]
  · intro x hx
    rw [hperm.mem_iff] at hx
    obtain ⟨s, hs, hsx⟩ := List.mem_map.1 hx
    have hmem := List.mem_filter.1 hs
    refine ⟨s, hmem.1, hmem.2, ?_⟩
    rw [hfun s] at hsx
    cases hres : r.executor.Execute s
        ((r.prepareStepEnv h p s env).1.read (r.prepareStepEnv h p s env).2) workspace with
    | ok result =>
      rw [hres] at hsx
      exact Or.inl (congrArg Except.ok hsx)
    | error e =>
      rw [hres] at hsx
      exact Or.inr ⟨e, rfl, hsx.symm⟩

/-- Witness of C2: the pipeline of `TestRunWithFailure` under the mock executor and a
schedule in which the failing step finishes first; the list holds the failed result of
`fail-step` and the successful result of `success-step`, as the mock executor returned
them. -/
theorem executeSteps_collects_witness :
    (0 < exampleMockRunner.config.Runner.Capacity ∧ 0 < exampleHeap.cells.length) ∧
      exampleMockRunner.executeSteps exampleHeap examplePipeline 0 "/tmp/ws" exampleSchedule
        = some ([exampleMockFailResult, exampleMockSuccessResult], none) ∧
      (exampleMockFailResult.Success = false ∧ exampleMockFailResult.Step.Name = "fail-step" ∧
        exampleMockSuccessResult.Success = true ∧
        exampleMockSuccessResult.Step.Name = "success-step") ∧
      ((none : Option String) = none ∧
        [exampleMockFailResult, exampleMockSuccessResult].Perm
          ((examplePipeline.Steps.filter Step.ShouldRun).map (fun s =>
            match exampleMockRunner.executor.Execute s
                ((exampleMockRunner.prepareStepEnv exampleHeap examplePipeline s 0).1.read
                  (exampleMockRunner.prepareStepEnv exampleHeap examplePipeline s 0).2)
                "/tmp/ws" with
            | .ok result => result
            | .error e =>
              { Success := false, ExitCode := 1, Output := "", Error := e, Duration := 0,
                Step := s })) ∧
        [exampleMockFailResult, exampleMockSuccessResult].length
          = (examplePipeline.Steps.filter Step.ShouldRun).length ∧
        (∀ s ∈ examplePipeline.Steps, s.ShouldRun = true → ∀ result,
          exampleMockRunner.executor.Execute s
              ((exampleMockRunner.prepareStepEnv exampleHeap examplePipeline s 0).1.read
                (exampleMockRunner.prepareStepEnv exampleHeap examplePipeline s 0).2)
              "/tmp/ws" = .ok result →
            result ∈ [exampleMockFailResult, exampleMockSuccessResult]) ∧
        (∀ s ∈ examplePipeline.Steps, s.ShouldRun = true → ∀ e,
          exampleMockRunner.executor.Execute s
              ((exampleMockRunner.prepareStepEnv exampleHeap examplePipeline s 0).1.read
                (exampleMockRunner.prepareStepEnv exampleHeap examplePipeline s 0).2)
              "/tmp/ws" = .error e →
            (⟨false, 1, "", e, 0, s⟩ : Result) ∈
              [exampleMockFailResult, exampleMockSuccessResult]) ∧
        (∀ x ∈ [exampleMockFailResult, exampleMockSuccessResult],
          ∃ s ∈ examplePipeline.Steps, s.ShouldRun = true ∧
            (exampleMockRunner.executor.Execute s
                ((exampleMockRunner.prepareStepEnv exampleHeap examplePipeline s 0).1.read
                  (exampleMockRunner.prepareStepEnv exampleHeap examplePipeline s 0).2)
                "/tmp/ws" = .ok x ∨
              ∃ e, exampleMockRunner.executor.Execute s
                  ((exampleMockRunner.prepareStepEnv exampleHeap examplePipeline s 0).1.read
                    (exampleMockRunner.prepareStepEnv exampleHeap examplePipeline s 0).2)
                  "/tmp/ws" = .error e ∧
                x = ⟨false, 1, "", e, 0, s⟩))) :=
  ⟨⟨by decide, by decide⟩, rfl, by decide,
    (executeSteps_collects exampleMockRunner exampleHeap examplePipeline 0 "/tmp/ws"
      (by decide) (by decide)).1 exampleSchedule _ none rfl⟩

/-- C4: in every state an execution of `executeSteps` can reach, the number of `Execute`
calls in progress is at most the effective concurrency: every goroutine inside
`Execute` holds a token, the goroutines holding a token are exactly as many as the
tokens in the channel, and the channel never holds more than the effective
concurrency. -/
theorem bounded_concurrency (r : Runner) (h : Heap) (p : Pipeline) (env : Nat)
    (workspace : String) (hcap : 0 < r.config.Runner.Capacity)
    (henv : env < h.cells.length) (sched : List Action) (st : PoolState)
    (hrun : poolRun r p env workspace
      (effectiveConcurrency p.Concurrency r.config.Runner.Capacity) (poolInit h) sched
        = some st) :
    (st.inProgress : Int) ≤ effectiveConcurrency p.Concurrency r.config.Runner.Capacity ∧
      (∀ t ∈ st.tasks, t.pc.inCall = true → t.pc.holdsToken = true) ∧
      st.holders = st.sem ∧
      (st.sem : Int) ≤ effectiveConcurrency p.Concurrency r.config.Runner.Capacity := by
  have hc := effectiveConcurrency_pos p.Concurrency r.config.Runner.Capacity hcap
  have hinv := poolRun_inv r p env workspace _ h sched _ st henv
    (poolInit_inv r p env workspace _ h) hrun
  have himp : ∀ t ∈ st.tasks, t.pc.inCall = true → t.pc.holdsToken = true := by
    intro t _ hin
    cases hpc : t.pc <;> simp [hpc, Pc.inCall, Pc.holdsToken] at hin ⊢
  have hle : st.inProgress ≤ st.holders := List.countP_mono_left himp
  have hsem : (st.sem : Int) ≤ effectiveConcurrency p.Concurrency r.config.Runner.Capacity := by
    have := hinv.sem_le
    omega
  refine ⟨?_, himp, hinv.sem_eq.symm, hsem⟩
  have := hinv.sem_eq
  omega

/-- Witness of C4: two steps under concurrency 2, both inside `Execute`. -/
theorem bounded_concurrency_witness :
    (0 < exampleRunner.config.Runner.Capacity ∧ 0 < exampleHeap.cells.length ∧
      poolRun exampleRunner examplePipelineTwo 0 "/tmp/ws"
        (effectiveConcurrency examplePipelineTwo.Concurrency
          exampleRunner.config.Runner.Capacity) (poolInit exampleHeap) exampleBusySchedule
          = some exampleBusyState) ∧
      ((exampleBusyState.inProgress : Int) ≤
          effectiveConcurrency examplePipelineTwo.Concurrency
            exampleRunner.config.Runner.Capacity ∧
        (∀ t ∈ exampleBusyState.tasks, t.pc.inCall = true → t.pc.holdsToken = true) ∧
        exampleBusyState.holders = exampleBusyState.sem ∧
        (exampleBusyState.sem : Int) ≤
          effectiveConcurrency examplePipelineTwo.Concurrency
            exampleRunner.config.Runner.Capacity) :=
  ⟨⟨by decide, by decide, by decide⟩,
    bounded_concurrency exampleRunner exampleHeap examplePipelineTwo 0 "/tmp/ws"
      (by decide) (by decide) exampleBusySchedule exampleBusyState (by decide)⟩

theorem Runner.Run_err_cases (r : Runner) (fs : FileSystem) (h : Heap) (path : String)
    (sched : List Action) (out : RunOutcome) (msg : String)
    (hrun : r.Run fs h path sched = some out) (hmsg : out.err = some msg) :
    (∃ e, msg = "failed to load pipeline: " ++ e) ∨
      (∃ e, msg = "failed to setup executor: " ++ e) ∨
      (∃ name, msg = "pipeline failed at step: " ++ name) := by
  unfold Runner.Run at hrun
  cases hl : Load fs path with
  | error e =>
    simp only [hl, Option.some.injEq] at hrun
    subst hrun
    simp only [Option.some.injEq] at hmsg
    exact Or.inl ⟨e, hmsg.symm⟩
  | ok p =>
    simp only [hl] at hrun
    cases hsetup : r.executor.Setup
        (if p.Workspace ≠ "" then p.Workspace else r.config.Runner.Workspace) with
    | some e =>
      simp only [hsetup, Option.some.injEq] at hrun
      subst hrun
      simp only [Option.some.injEq] at hmsg
      exact Or.inr (Or.inl ⟨e, hmsg.symm⟩)
    | none =>
      rcases hpe : r.prepareEnv h p with ⟨h1, env⟩
      cases hex : r.executeSteps h1 p env
          (if p.Workspace ≠ "" then p.Workspace else r.config.Runner.Workspace) sched with
      | none => simp only [hsetup, hpe, hex] at hrun
                exact Option.noConfusion hrun
      | some res =>
        obtain ⟨rs, err⟩ := res
        have herr := (Runner.executeSteps_eq_some r h1 p env _ sched rs err hex).1
        subst herr
        simp only [hsetup, hpe, hex, Option.some.injEq] at hrun
        subst hrun
        simp only at hmsg
        clear hex
        induction rs with
        | nil => simp [runVerdict] at hmsg
        | cons a t ih =>
          cases hs : a.Success with
          | true =>
            simp only [runVerdict, hs, Bool.not_true, Bool.false_eq_true, if_false] at hmsg
            exact ih hmsg
          | false =>
            simp only [runVerdict, hs, Bool.not_false, if_true, Option.some.injEq] at hmsg
            exact Or.inr (Or.inr ⟨a.Step.Name, hmsg.symm⟩)

/-- C7: when `Execute` returns a non-nil error `e` for an eligible step `s`, the result
collected for `s` is exactly the failed result with exit code 1, error message `e`, step
`s`, empty output and zero duration, and it is in the list `executeSteps` returns; that
list holds one result per eligible step and comes with a nil error; every partial
execution can be run on to the return of `executeSteps`; and no error of `Run` starts
with "failed to execute pipeline". -/
theorem plumbing_error_recovery (r : Runner) (h : Heap) (p : Pipeline) (env : Nat)
    (workspace : String) (hcap : 0 < r.config.Runner.Capacity)
    (henv : env < h.cells.length) :
    (∀ sched rs err, r.executeSteps h p env workspace sched = some (rs, err) →
      err = none ∧ rs.length = (p.Steps.filter Step.ShouldRun).length ∧
      ∀ s ∈ p.Steps, s.ShouldRun = true → ∀ e,
        r.executor.Execute s (r.stepEnv h p s env) workspace = .error e →
        r.stepResult h p env workspace s =
            { Success := false, ExitCode := 1, Output := "", Error := e, Duration := 0,
              Step := s } ∧
          ({ Success := false, ExitCode := 1, Output := "", Error := e, Duration := 0,
              Step := s } : Result) ∈ rs) ∧
    (∀ sched st,
      poolRun r p env workspace
        (effectiveConcurrency p.Concurrency r.config.Runner.Capacity) (poolInit h) sched
          = some st →
      ∃ more rs, r.executeSteps h p env workspace (sched ++ more) = some (rs, none)) ∧
    (∀ fs h1 path sched out msg, r.Run fs h1 path sched = some out → out.err = some msg →
      ¬ ("failed to execute pipeline".data <+: msg.data)) := by
  refine ⟨?_, fun sched st hrun =>
    Runner.executeSteps_extend r h p env workspace hcap henv sched st hrun, ?_⟩
  · intro sched rs err hexec
    obtain ⟨herr, hperm⟩ := Runner.executeSteps_perm r h p env workspace henv sched rs err hexec
    refine ⟨herr, ?_, ?_⟩
    · rw [hperm.length_eq, List.length_map]
      rfl
    · intro s hs hrun e he
      have hres : r.stepResult h p env workspace s =
          { Success := false, ExitCode := 1, Output := "", Error := e, Duration := 0,
            Step := s } := by
        simp only [Runner.stepResult, he, collectResult]
      refine ⟨hres, ?_⟩
      rw [← hres, hperm.mem_iff]
      exact List.mem_map.2 ⟨s, List.mem_filter.2 ⟨hs, hrun⟩, rfl⟩
  · intro fs h1 path sched out msg hrun hmsg
    rcases Runner.Run_err_cases r fs h1 path sched out msg hrun hmsg with
      ⟨e, he⟩ | ⟨e, he⟩ | ⟨e, he⟩
    · subst he
      simp [List.cons_prefix_cons]
    · subst he
      simp [List.cons_prefix_cons]
    · subst he
      simp [List.cons_prefix_cons]

/-- Witness of C7: a pipeline whose first step makes `Execute` return the plumbing
error "cannot start". -/
theorem plumbing_error_recovery_witness :
    (0 < exampleRunner.config.Runner.Capacity ∧ 0 < exampleHeap.cells.length ∧
      exampleRunner.executeSteps exampleHeap exampleBrokenPipeline 0 "/tmp/ws"
        exampleSchedule = some ([exampleRunner.stepResult exampleHeap exampleBrokenPipeline 0
            "/tmp/ws" (exampleStep "success-step" ["true"]), exampleBrokenResult], none)) ∧
      ((none : Option String) = none ∧
        [exampleRunner.stepResult exampleHeap exampleBrokenPipeline 0
            "/tmp/ws" (exampleStep "success-step" ["true"]), exampleBrokenResult].length
          = (exampleBrokenPipeline.Steps.filter Step.ShouldRun).length ∧
        ∀ s ∈ exampleBrokenPipeline.Steps, s.ShouldRun = true → ∀ e,
          exampleRunner.executor.Execute s
            (exampleRunner.stepEnv exampleHeap exampleBrokenPipeline s 0) "/tmp/ws"
              = .error e →
          exampleRunner.stepResult exampleHeap exampleBrokenPipeline 0 "/tmp/ws" s =
              { Success := false, ExitCode := 1, Output := "", Error := e, Duration := 0,
                Step := s } ∧
            ({ Success := false, ExitCode := 1, Output := "", Error := e, Duration := 0,
                Step := s } : Result) ∈
              [exampleRunner.stepResult exampleHeap exampleBrokenPipeline 0
                  "/tmp/ws" (exampleStep "success-step" ["true"]), exampleBrokenResult]) :=
  ⟨⟨by decide, by decide, by decide⟩,
    (plumbing_error_recovery exampleRunner exampleHeap exampleBrokenPipeline 0 "/tmp/ws"
      (by decide) (by decide)).1 exampleSchedule _ none (by decide)⟩

/-! ### The dispatch decision of the local executor -/

theorem containsChars_iff (s sub : List Char) : containsChars s sub = true ↔ sub <:+: s := by
  induction s with
  | nil =>
    simp only [containsChars, List.isEmpty_iff, List.infix_nil]
  | cons c t ih =>
    simp only [containsChars, Bool.or_eq_true, ih, List.infix_cons_iff,
      List.isPrefixOf_iff_prefix]

theorem Contains_iff (s sub : String) : Contains s sub = true ↔ sub.data <:+: s.data :=
  containsChars_iff s.data sub.data

theorem needsShell_iff (c : String) : needsShell c = true ↔ containsTrigger c := by
  simp only [needsShell, Bool.or_eq_true, Contains_iff, containsTrigger, shellTriggers,
    List.mem_cons, List.mem_singleton, exists_eq_or_imp, exists_eq_left, List.not_mem_nil,
    false_and, exists_false, or_false, or_assoc]

theorem fieldsChars_length (s cur : List Char) :
    ((fieldsChars s cur).map List.length).sum ≤ s.length + cur.length := by
  induction s generalizing cur with
  | nil =>
    by_cases h : cur.isEmpty = true <;> simp [fieldsChars, h]
  | cons c t ih =>
    by_cases hsp : isSpace c = true
    · by_cases h : cur.isEmpty = true
      · have := ih []
        simp only [fieldsChars, hsp, h, if_true, List.length_cons]
        simp only [List.length_nil] at this
        omega
      · have := ih []
        simp only [fieldsChars, hsp, h, if_true, Bool.false_eq_true, if_false, List.map_cons,
          List.sum_cons, List.length_cons]
        simp only [List.length_nil] at this
        omega
    · have := ih (cur ++ [c])
      simp only [fieldsChars, hsp, Bool.false_eq_true, if_false, List.length_cons]
      simp only [List.length_append, List.length_singleton] at this
      omega

theorem Fields_ne_sh (c : String) : Fields c ≠ ["sh", "-c", c] := by
  intro h
  have hlen := fieldsChars_length c.data []
  have hmap : ((fieldsChars c.data []).map String.mk).map String.length
      = (fieldsChars c.data []).map List.length := by
    rw [List.map_map]
    rfl
  simp only [Fields] at h
  rw [← hmap, h] at hlen
  simp only [List.map_cons, List.map_nil, List.sum_cons, List.sum_nil, List.length_nil,
    add_zero] at hlen
  have h1 : "sh".length = 2 := by decide
  have h2 : "-c".length = 2 := by decide
  have h3 : c.length = c.data.length := rfl
  omega

theorem mainCommand_shell_iff (c : String) :
    mainCommand c = some ("sh", ["-c", c]) ↔ needsShell c = true := by
  constructor
  · intro h
    by_contra hn
    simp only [mainCommand, hn, Bool.false_eq_true, if_false] at h
    cases hf : Fields c with
    | nil => simp [hf] at h
    | cons name args =>
      simp only [hf, Option.some.injEq, Prod.mk.injEq] at h
      apply Fields_ne_sh c
      rw [hf, h.1, h.2]
  · intro h
    simp only [mainCommand, h, if_true]

theorem fieldsChars_eq_nil_iff (s cur : List Char) :
    fieldsChars s cur = [] ↔ cur = [] ∧ ∀ ch ∈ s, isSpace ch = true := by
  induction s generalizing cur with
  | nil =>
    cases cur <;> simp [fieldsChars]
  | cons c t ih =>
    by_cases hsp : isSpace c = true
    · cases cur with
      | nil => simp [fieldsChars, hsp, ih]
      | cons a rest => simp [fieldsChars, hsp]
    · simp [fieldsChars, hsp, ih]

theorem Fields_eq_nil_iff (c : String) : Fields c = [] ↔ isBlank c := by
  simp only [Fields, List.map_eq_nil_iff, fieldsChars_eq_nil_iff, true_and, isBlank]

theorem hookCommand_eq_none_iff (hook : String) : hookCommand hook = none ↔ isBlank hook := by
  rw [← Fields_eq_nil_iff]
  cases hf : Fields hook <;> simp [hookCommand, hf]

theorem not_isBlank_of_containsTrigger (c : String) (h : containsTrigger c) : ¬ isBlank c := by
  intro hb
  obtain ⟨t, ht, hin⟩ := h
  have hsub : ∀ ch ∈ t.data, isSpace ch = true := fun ch hch => hb ch (hin.subset hch)
  simp only [shellTriggers, List.mem_cons, List.mem_singleton, List.not_mem_nil,
    or_false] at ht
  rcases ht with ht | ht | ht | ht | ht | ht | ht <;> subst ht
  · exact absurd (hsub '|' (by decide)) (by decide)
  · exact absurd (hsub '>' (by decide)) (by decide)
  · exact absurd (hsub '<' (by decide)) (by decide)
  · exact absurd (hsub '&' (by decide)) (by decide)
  · exact absurd (hsub '|' (by decide)) (by decide)
  · exact absurd (hsub ';' (by decide)) (by decide)
  · exact absurd (hsub '$' (by decide)) (by decide)

theorem mainCommand_eq_none_iff (c : String) : mainCommand c = none ↔ isBlank c := by
  constructor
  · intro h
    by_cases hn : needsShell c = true
    · simp [mainCommand, hn] at h
    · simp only [mainCommand, hn, Bool.false_eq_true, if_false] at h
      cases hf : Fields c with
      | nil => exact (Fields_eq_nil_iff c).1 hf
      | cons name args => simp [hf] at h
  · intro hb
    have hn : ¬ needsShell c = true := fun h =>
      not_isBlank_of_containsTrigger c ((needsShell_iff c).1 h) hb
    simp only [mainCommand, hn, Bool.false_eq_true, if_false, (Fields_eq_nil_iff c).2 hb]

/-- C10, the claim as stated fails on a blank command: the empty string contains no
trigger, and `Execute` invokes nothing for it, there being no first token. -/
theorem dispatch_decision_blank :
    ¬ containsTrigger "" ∧ Fields "" = [] ∧ mainCommand "" = none ∧
      ¬ (∀ c : String, ¬ containsTrigger c →
        ∃ name args, Fields c = name :: args ∧ mainCommand c = some (name, args)) := by
  have hno : ¬ containsTrigger "" := by
    rw [← needsShell_iff]
    decide
  refine ⟨hno, by decide, by decide, ?_⟩
  intro hall
  obtain ⟨name, args, hf, _⟩ := hall "" hno
  have hnil : Fields "" = [] := by decide
  rw [hnil] at hf
  exact List.noConfusion hf

/-- C10, amended: `Execute` invokes `c` as the program `sh` with the arguments `-c` and
`c` iff `c` contains one of the triggers; otherwise it splits `c` on white space and,
when there is at least one token, invokes the first token with the remaining tokens
as arguments, and when there is none it invokes nothing; it invokes nothing exactly
when `c` is blank. -/
theorem dispatch_decision (c : String) :
    (mainCommand c = some ("sh", ["-c", c]) ↔ containsTrigger c) ∧
      (¬ containsTrigger c →
        (∀ name args, Fields c = name :: args → mainCommand c = some (name, args)) ∧
        (Fields c = [] → mainCommand c = none)) ∧
      (mainCommand c = none ↔ isBlank c) := by
  refine ⟨(mainCommand_shell_iff c).trans (needsShell_iff c), ?_, mainCommand_eq_none_iff c⟩
  intro hno
  have hn : ¬ needsShell c = true := fun h => hno ((needsShell_iff c).1 h)
  refine ⟨?_, ?_⟩
  · intro name args hf
    simp only [mainCommand, hn, Bool.false_eq_true, if_false, hf]
  · intro hf
    simp only [mainCommand, hn, Bool.false_eq_true, if_false, hf]

/-! ### The launches of the local executor -/

theorem executeHooks_log {σ : Type} (os : OS σ) (timeout : Option Int)
    (hooks : List String) (env : List String) (workspace : String) (st : ExecState σ) :
    ∃ H, (executeHooks os timeout hooks env workspace st).log = st.log ++ H ∧
      H.map Launch.cmd = (hooks.filterMap hookCommand).map (mkCmd workspace env timeout) ∧
      ∀ l ∈ H, l.hook = true := by
  induction hooks generalizing st with
  | nil => exact ⟨[], by simp [executeHooks], rfl, by simp⟩
  | cons hook rest ih =>
    cases hh : hookCommand hook with
    | none =>
      obtain ⟨H, hlog, hcmd, hhook⟩ := ih st
      refine ⟨H, ?_, ?_, hhook⟩
      · simp only [executeHooks, hh]
        exact hlog
      · simp only [List.filterMap_cons, hh]
        exact hcmd
    | some pa =>
      obtain ⟨name, args⟩ := pa
      obtain ⟨H, hlog, hcmd, hhook⟩ := ih
        ⟨(os.run st.world ⟨name, args, workspace, env, timeout⟩).2,
          st.output ++ (os.run st.world ⟨name, args, workspace, env, timeout⟩).1.written,
          st.log ++ [⟨⟨name, args, workspace, env, timeout⟩, true,
            (os.run st.world ⟨name, args, workspace, env, timeout⟩).1.err⟩]⟩
      refine ⟨⟨⟨name, args, workspace, env, timeout⟩, true,
          (os.run st.world ⟨name, args, workspace, env, timeout⟩).1.err⟩ :: H, ?_, ?_, ?_⟩
      · simp only [executeHooks, hh]
        rw [hlog]
        simp
      · simp only [List.filterMap_cons, hh, List.map_cons, hcmd]
        rfl
      · intro l hl
        simp only [List.mem_cons] at hl
        rcases hl with hl | hl
        · subst hl
          rfl
        · exact hhook l hl

theorem runCommands_spec {σ : Type} (os : OS σ) (step : Step) (workspace : String)
    (execEnv : List String) (timeout : Option Int) (cmds : List String)
    (st : LocalState σ) :
    (∃ M, (runCommands os step workspace execEnv timeout cmds st).lastErr = st.lastErr ∧
      (runCommands os step workspace execEnv timeout cmds st).exitCode = st.exitCode ∧
      (runCommands os step workspace execEnv timeout cmds st).io.log = st.io.log ++ M ∧
      M.map Launch.cmd = (cmds.filterMap mainCommand).map (mkCmd workspace execEnv timeout) ∧
      ∀ l ∈ M, l.hook = false ∧ l.err = none) ∨
    (∃ e M H pre c post pa,
      (runCommands os step workspace execEnv timeout cmds st).lastErr = some e ∧
      (runCommands os step workspace execEnv timeout cmds st).exitCode = exitCodeOf e ∧
      (runCommands os step workspace execEnv timeout cmds st).io.log
        = st.io.log ++ M ++ [⟨mkCmd workspace execEnv timeout pa, false, some e⟩] ++ H ∧
      cmds = pre ++ c :: post ∧ mainCommand c = some pa ∧
      M.map Launch.cmd = (pre.filterMap mainCommand).map (mkCmd workspace execEnv timeout) ∧
      (∀ l ∈ M, l.hook = false ∧ l.err = none) ∧
      H.map Launch.cmd
        = (step.OnFailure.filterMap hookCommand).map (mkCmd workspace execEnv timeout) ∧
      ∀ l ∈ H, l.hook = true) := by
  induction cmds generalizing st with
  | nil => exact Or.inl ⟨[], rfl, rfl, by simp [runCommands], rfl, by simp⟩
  | cons c rest ih =>
    cases hm : mainCommand c with
    | none =>
      rcases ih st with ⟨M, h1, h2, h3, h4, h5⟩ | ⟨e, M, H, pre, c', post, pa, h1, h2, h3, h4, h5, h6, h7, h8, h9⟩
      · refine Or.inl ⟨M, ?_, ?_, ?_, ?_, h5⟩
        · simp only [runCommands, hm]; exact h1
        · simp only [runCommands, hm]; exact h2
        · simp only [runCommands, hm]; exact h3
        · simp only [List.filterMap_cons, hm]; exact h4
      · refine Or.inr ⟨e, M, H, c :: pre, c', post, pa, ?_, ?_, ?_, ?_, h5, ?_, h7, h8, h9⟩
        · simp only [runCommands, hm]; exact h1
        · simp only [runCommands, hm]; exact h2
        · simp only [runCommands, hm]; exact h3
        · rw [h4]; rfl
        · simp only [List.filterMap_cons, hm]; exact h6
    | some pa =>
      obtain ⟨name, args⟩ := pa
      cases he : (os.run st.io.world ⟨name, args, workspace, execEnv, timeout⟩).1.err with
      | none =>
        have hrun : runMainCommand os step workspace execEnv timeout name args st
            = (⟨⟨(os.run st.io.world ⟨name, args, workspace, execEnv, timeout⟩).2,
                st.io.output
                  ++ (os.run st.io.world ⟨name, args, workspace, execEnv, timeout⟩).1.written,
                st.io.log ++ [⟨⟨name, args, workspace, execEnv, timeout⟩, false, none⟩]⟩,
                st.lastErr, st.exitCode⟩, false) := by
          simp only [runMainCommand, he]
        rcases ih (runMainCommand os step workspace execEnv timeout name args st).1 with
          ⟨M, h1, h2, h3, h4, h5⟩ | ⟨e, M, H, pre, c', post, pa, h1, h2, h3, h4, h5, h6, h7, h8, h9⟩
        · refine Or.inl ⟨⟨⟨name, args, workspace, execEnv, timeout⟩, false, none⟩ :: M,
            ?_, ?_, ?_, ?_, ?_⟩
          · simp only [runCommands, hm, hrun] at h1 ⊢; exact h1
          · simp only [runCommands, hm, hrun] at h2 ⊢; exact h2
          · simp only [runCommands, hm, hrun] at h3 ⊢
            rw [h3]; simp
          · simp only [List.filterMap_cons, hm, List.map_cons, h4]; rfl
          · intro l hl
            simp only [List.mem_cons] at hl
            rcases hl with hl | hl
            · subst hl; exact ⟨rfl, rfl⟩
            · exact h5 l hl
        · refine Or.inr ⟨e, ⟨⟨name, args, workspace, execEnv, timeout⟩, false, none⟩ :: M, H,
            c :: pre, c', post, pa, ?_, ?_, ?_, ?_, h5, ?_, ?_, h8, h9⟩
          · simp only [runCommands, hm, hrun] at h1 ⊢; exact h1
          · simp only [runCommands, hm, hrun] at h2 ⊢; exact h2
          · simp only [runCommands, hm, hrun] at h3 ⊢
            rw [h3]; simp
          · rw [h4]; rfl
          · simp only [List.filterMap_cons, hm, List.map_cons, h6]; rfl
          · intro l hl
            simp only [List.mem_cons] at hl
            rcases hl with hl | hl
            · subst hl; exact ⟨rfl, rfl⟩
            · exact h7 l hl
      | some e =>
        obtain ⟨H, hlog, hcmd, hhook⟩ := executeHooks_log os timeout step.OnFailure execEnv
          workspace
          ⟨(os.run st.io.world ⟨name, args, workspace, execEnv, timeout⟩).2,
            st.io.output
              ++ (os.run st.io.world ⟨name, args, workspace, execEnv, timeout⟩).1.written
              ++ ("\nError: " ++ e.Error ++ "\n"),
            st.io.log ++ [⟨⟨name, args, workspace, execEnv, timeout⟩, false, some e⟩]⟩
        by_cases hlen : step.OnFailure.length > 0
        · refine Or.inr ⟨e, [], H, [], c, rest, (name, args), ?_, ?_, ?_, rfl, hm, rfl,
            by simp, hcmd, hhook⟩
          · simp only [runCommands, hm, runMainCommand, he]
          · simp only [runCommands, hm, runMainCommand, he]
          · simp only [runCommands, hm, runMainCommand, he, hlen, if_true]
            rw [hlog]
            simp [mkCmd]
        · have hnil : step.OnFailure = [] := by
            cases hof : step.OnFailure with
            | nil => rfl
            | cons a t => simp [hof] at hlen
          refine Or.inr ⟨e, [], [], [], c, rest, (name, args), ?_, ?_, ?_, rfl, hm, rfl,
            by simp, by simp [hnil], by simp⟩
          · simp only [runCommands, hm, runMainCommand, he]
          · simp only [runCommands, hm, runMainCommand, he]
          · simp only [runCommands, hm, runMainCommand, he, hlen, if_false]
            simp [mkCmd]

theorem LocalExecutor.Execute_cases {σ : Type} (os : OS σ) (w : σ) (step : Step)
    (env : GoMap) (workspace : String) :
    (LocalExecutor.Execute os w step env workspace).err = none ∧
    (LocalExecutor.Execute os w step env workspace).result.Step = step ∧
    ((∃ M H,
      (LocalExecutor.Execute os w step env workspace).result.Success = true ∧
      (LocalExecutor.Execute os w step env workspace).result.ExitCode = 0 ∧
      (LocalExecutor.Execute os w step env workspace).result.Error = "" ∧
      (LocalExecutor.Execute os w step env workspace).log = M ++ H ∧
      M.map Launch.cmd = (step.Commands.filterMap mainCommand).map
        (mkCmd workspace (buildExecEnv (os.environ w) env step) (stepTimeout step)) ∧
      (∀ l ∈ M, l.hook = false ∧ l.err = none) ∧
      H.map Launch.cmd = (step.OnSuccess.filterMap hookCommand).map
        (mkCmd workspace (buildExecEnv (os.environ w) env step) (stepTimeout step)) ∧
      ∀ l ∈ H, l.hook = true) ∨
    (∃ e M H pre c post pa,
      (LocalExecutor.Execute os w step env workspace).result.Success = false ∧
      (LocalExecutor.Execute os w step env workspace).result.ExitCode = exitCodeOf e ∧
      (LocalExecutor.Execute os w step env workspace).result.Error = e.Error ∧
      (LocalExecutor.Execute os w step env workspace).log
        = M ++ [⟨mkCmd workspace (buildExecEnv (os.environ w) env step) (stepTimeout step) pa,
            false, some e⟩] ++ H ∧
      step.Commands = pre ++ c :: post ∧ mainCommand c = some pa ∧
      M.map Launch.cmd = (pre.filterMap mainCommand).map
        (mkCmd workspace (buildExecEnv (os.environ w) env step) (stepTimeout step)) ∧
      (∀ l ∈ M, l.hook = false ∧ l.err = none) ∧
      H.map Launch.cmd = (step.OnFailure.filterMap hookCommand).map
        (mkCmd workspace (buildExecEnv (os.environ w) env step) (stepTimeout step)) ∧
      ∀ l ∈ H, l.hook = true)) := by
  refine ⟨rfl, ?_, ?_⟩
  · simp only [LocalExecutor.Execute]
    split <;> rfl
  · rcases runCommands_spec os step workspace (buildExecEnv (os.environ w) env step)
        (stepTimeout step) step.Commands ⟨⟨w, "", []⟩, none, 0⟩ with
      ⟨M, h1, h2, h3, h4, h5⟩ | ⟨e, M, H, pre, c, post, pa, h1, h2, h3, h4, h5, h6, h7, h8, h9⟩
    · left
      simp only at h1 h2 h3
      obtain ⟨H, hlog, hcmd, hhook⟩ := executeHooks_log os (stepTimeout step) step.OnSuccess
        (buildExecEnv (os.environ w) env step) workspace
        (runCommands os step workspace (buildExecEnv (os.environ w) env step)
          (stepTimeout step) step.Commands ⟨⟨w, "", []⟩, none, 0⟩).io
      by_cases hlen : step.OnSuccess.length > 0
      · refine ⟨M, H, ?_, ?_, ?_, ?_, h4, h5, hcmd, hhook⟩
        · simp only [LocalExecutor.Execute, h1]
          rfl
        · simp only [LocalExecutor.Execute, h1, h2]
        · simp only [LocalExecutor.Execute, h1]
        · simp only [LocalExecutor.Execute, h1, hlen, and_self, if_true]
          rw [hlog, h3]
          rfl
      · have hnil : step.OnSuccess = [] := by
          cases hof : step.OnSuccess with
          | nil => rfl
          | cons a t => simp [hof] at hlen
        refine ⟨M, [], ?_, ?_, ?_, ?_, h4, h5, by simp [hnil], by simp⟩
        · simp only [LocalExecutor.Execute, h1]
          rfl
        · simp only [LocalExecutor.Execute, h1, h2]
        · simp only [LocalExecutor.Execute, h1]
        · simp only [LocalExecutor.Execute, h1, hlen, and_false, if_false]
          rw [h3]
          simp
    · right
      simp only at h1 h2 h3
      refine ⟨e, M, H, pre, c, post, pa, ?_, ?_, ?_, ?_, h4, h5, h6, h7, h8, h9⟩
      · simp only [LocalExecutor.Execute, h1]
        rfl
      · simp only [LocalExecutor.Execute, h1, h2]
      · simp only [LocalExecutor.Execute, h1]
      · have hne : ¬ (some e = none ∧ step.OnSuccess.length > 0) := fun h => by
          exact Option.noConfusion h.1
        simp only [LocalExecutor.Execute, h1, hne, if_false]
        rw [h3]
        rfl

theorem runCommands_hooks_irrelevant {σ : Type} (os : OS σ) (step step' : Step)
    (workspace : String) (execEnv : List String) (timeout : Option Int)
    (cmds : List String) (st st' : LocalState σ) (hw : st.io.world = st'.io.world)
    (hl : st.lastErr = st'.lastErr) (hx : st.exitCode = st'.exitCode) :
    (runCommands os step workspace execEnv timeout cmds st).lastErr
        = (runCommands os step' workspace execEnv timeout cmds st').lastErr ∧
      (runCommands os step workspace execEnv timeout cmds st).exitCode
        = (runCommands os step' workspace execEnv timeout cmds st').exitCode := by
  induction cmds generalizing st st' with
  | nil => exact ⟨hl, hx⟩
  | cons c rest ih =>
    cases hm : mainCommand c with
    | none =>
      simp only [runCommands, hm]
      exact ih st st' hw hl hx
    | some pa =>
      obtain ⟨name, args⟩ := pa
      cases he : (os.run st.io.world ⟨name, args, workspace, execEnv, timeout⟩).1.err with
      | none =>
        have he' : (os.run st'.io.world ⟨name, args, workspace, execEnv, timeout⟩).1.err
            = none := by
          rw [← hw]; exact he
        simp only [runCommands, hm, runMainCommand, he, he']
        apply ih
        · simp only [hw]
        · exact hl
        · exact hx
      | some e =>
        have he' : (os.run st'.io.world ⟨name, args, workspace, execEnv, timeout⟩).1.err
            = some e := by
          rw [← hw]; exact he
        simp only [runCommands, hm, runMainCommand, he, he', and_self]

theorem LocalExecutor.Execute_fields {σ : Type} (os : OS σ) (w : σ) (step : Step)
    (env : GoMap) (workspace : String) :
    (LocalExecutor.Execute os w step env workspace).result.Success
        = decide ((runCommands os step workspace (buildExecEnv (os.environ w) env step)
            (stepTimeout step) step.Commands ⟨⟨w, "", []⟩, none, 0⟩).lastErr = none) ∧
      (LocalExecutor.Execute os w step env workspace).result.ExitCode
        = (runCommands os step workspace (buildExecEnv (os.environ w) env step)
            (stepTimeout step) step.Commands ⟨⟨w, "", []⟩, none, 0⟩).exitCode ∧
      (LocalExecutor.Execute os w step env workspace).result.Error
        = (match (runCommands os step workspace (buildExecEnv (os.environ w) env step)
            (stepTimeout step) step.Commands ⟨⟨w, "", []⟩, none, 0⟩).lastErr with
          | some err => err.Error
          | none => "") := by
  simp only [LocalExecutor.Execute]
  refine ⟨?_, ?_, ?_⟩ <;> split <;> rfl

/-- C5, amended: `Execute` returns a nil error and a result whose step is the input step;
the result reports success iff no main command launched returned an error; on success
the exit code is 0 and the error text empty; when a main command failed it is the last
main command launched, all earlier ones having succeeded, and the error text is its
message; the exit code is the exit status of its process when `cmd.Run` returned an exit
error for a process that exited, -1 when it returned an exit error for a process ended
by a signal, and 1 when it returned any other error; and emptying both hook lists
changes none of success, exit code and error text. -/
theorem local_result {σ : Type} (os : OS σ) (w : σ) (step : Step) (env : GoMap)
    (workspace : String) :
    (LocalExecutor.Execute os w step env workspace).err = none ∧
    (LocalExecutor.Execute os w step env workspace).result.Step = step ∧
    ((LocalExecutor.Execute os w step env workspace).result.Success = true ↔
      ∀ l ∈ (LocalExecutor.Execute os w step env workspace).log,
        l.hook = false → l.err = none) ∧
    ((LocalExecutor.Execute os w step env workspace).result.Success = true →
      (LocalExecutor.Execute os w step env workspace).result.ExitCode = 0 ∧
      (LocalExecutor.Execute os w step env workspace).result.Error = "") ∧
    (∀ l ∈ (LocalExecutor.Execute os w step env workspace).log, l.hook = false →
      ∀ e, l.err = some e →
        (∀ status msg, e = .exitError (.exited status) msg →
          (LocalExecutor.Execute os w step env workspace).result.ExitCode = status ∧
          (LocalExecutor.Execute os w step env workspace).result.Error = msg) ∧
        (∀ msg, e = .exitError .signaled msg →
          (LocalExecutor.Execute os w step env workspace).result.ExitCode = -1 ∧
          (LocalExecutor.Execute os w step env workspace).result.Error = msg) ∧
        (∀ msg, e = .other msg →
          (LocalExecutor.Execute os w step env workspace).result.ExitCode = 1 ∧
          (LocalExecutor.Execute os w step env workspace).result.Error = msg) ∧
        ∃ M, ((LocalExecutor.Execute os w step env workspace).log.filter
            (fun x => !x.hook)) = M ++ [l] ∧ ∀ x ∈ M, x.err = none) ∧
    ((LocalExecutor.Execute os w step env workspace).result.Success
        = (LocalExecutor.Execute os w step.withoutHooks env workspace).result.Success ∧
      (LocalExecutor.Execute os w step env workspace).result.ExitCode
        = (LocalExecutor.Execute os w step.withoutHooks env workspace).result.ExitCode ∧
      (LocalExecutor.Execute os w step env workspace).result.Error
        = (LocalExecutor.Execute os w step.withoutHooks env workspace).result.Error) := by
  obtain ⟨herr, hstep, hcases⟩ := LocalExecutor.Execute_cases os w step env workspace
  refine ⟨herr, hstep, ?_, ?_, ?_, ?_⟩
  · rcases hcases with ⟨M, H, h1, _, _, h4, _, h6, _, h8⟩ |
      ⟨e, M, H, pre, c, post, pa, h1, _, _, h4, _, _, _, _, _, _⟩
    · simp only [h1, true_iff, h4]
      intro l hl hh
      rcases List.mem_append.1 hl with hl | hl
      · exact (h6 l hl).2
      · rw [h8 l hl] at hh
        exact Bool.noConfusion hh
    · simp only [h1, Bool.false_eq_true, false_iff, h4]
      intro hall
      have := hall ⟨mkCmd workspace (buildExecEnv (os.environ w) env step) (stepTimeout step) pa,
        false, some e⟩ (by simp) rfl
      exact Option.noConfusion this
  · rcases hcases with ⟨M, H, h1, h2, h3, _⟩ |
      ⟨e, M, H, pre, c, post, pa, h1, _⟩
    · exact fun _ => ⟨h2, h3⟩
    · intro h
      rw [h1] at h
      exact Bool.noConfusion h
  · intro l hl hh e he
    rcases hcases with ⟨M, H, _, _, _, h4, _, h6, _, h8⟩ |
      ⟨e', M, H, pre, c, post, pa, _, h2, h3, h4, _, _, _, h8, _, h10⟩
    · rw [h4] at hl
      rcases List.mem_append.1 hl with hl | hl
      · rw [(h6 l hl).2] at he
        exact Option.noConfusion he
      · rw [h8 l hl] at hh
        exact Bool.noConfusion hh
    · have hfM : M.filter (fun x => !x.hook) = M := by
        rw [List.filter_eq_self]
        intro x hx
        simp [(h8 x hx).1]
      have hfH : H.filter (fun x => !x.hook) = [] := by
        rw [List.filter_eq_nil_iff]
        intro x hx
        simp [h10 x hx]
      rw [h4] at hl
      simp only [List.mem_append, List.mem_singleton] at hl
      rcases hl with (hl | hl) | hl
      · rw [(h8 l hl).2] at he
        exact Option.noConfusion he
      · subst hl
        simp only [Option.some.injEq] at he
        subst he
        refine ⟨?_, ?_, ?_, M, ?_, fun x hx => (h8 x hx).2⟩
        · intro status msg hcase
          subst hcase
          exact ⟨h2, h3⟩
        · intro msg hcase
          subst hcase
          exact ⟨h2, h3⟩
        · intro msg hcase
          subst hcase
          exact ⟨h2, h3⟩
        rw [h4]
        simp [List.filter_append, hfM, hfH]
      · rw [h10 l hl] at hh
        exact Bool.noConfusion hh
  · have hirr := runCommands_hooks_irrelevant os step step.withoutHooks workspace
      (buildExecEnv (os.environ w) env step) (stepTimeout step) step.Commands
      ⟨⟨w, "", []⟩, none, 0⟩ ⟨⟨w, "", []⟩, none, 0⟩ rfl rfl rfl
    have h1 := LocalExecutor.Execute_fields os w step env workspace
    have h2 := LocalExecutor.Execute_fields os w step.withoutHooks env workspace
    have henv : buildExecEnv (os.environ w) env step.withoutHooks
        = buildExecEnv (os.environ w) env step := rfl
    have htime : stepTimeout step.withoutHooks = stepTimeout step := rfl
    have hcmds : step.withoutHooks.Commands = step.Commands := rfl
    rw [henv, htime, hcmds, ← hirr.1, ← hirr.2] at h2
    rw [h1.1, h1.2.1, h1.2.2, h2.1, h2.2.1, h2.2.2]
    exact ⟨rfl, rfl, rfl⟩

/-- C5, the claim as stated fails on a command ended by a signal: the only command of
the step outlives the step's timeout and is killed, so `cmd.Run` returns an exit error
whose process has no exit status; `Execute` reports the failure with exit code -1,
where the claim expects 1. -/
theorem local_result_signal_killed :
    (LocalExecutor.Execute exampleTimeoutOS 0 exampleTimeoutStep [] "/ws").log.map
        (fun l => (l.cmd.Name, l.cmd.Args, l.cmd.Timeout, l.hook, l.err))
      = [("sleep", ["10"], some 1, false, some (.exitError .signaled "signal: killed"))] ∧
    (LocalExecutor.Execute exampleTimeoutOS 0 exampleTimeoutStep [] "/ws").result.Success
      = false ∧
    (LocalExecutor.Execute exampleTimeoutOS 0 exampleTimeoutStep [] "/ws").result.ExitCode
      = -1 ∧
    (LocalExecutor.Execute exampleTimeoutOS 0 exampleTimeoutStep [] "/ws").result.ExitCode
      ≠ 1 ∧
    (LocalExecutor.Execute exampleTimeoutOS 0 exampleTimeoutStep [] "/ws").result.Error
      = "signal: killed" := by
  decide

/-- C6, the claim as stated fails on a blank hook: the only main command of the step
fails, its `on_failure` list holds one command, a blank one, and `Execute` launches the
main command and no hook. -/
theorem launch_sequence_blank_hook :
    (LocalExecutor.Execute exampleOS 0 exampleBlankHookStep [] "/ws").result.Success = false ∧
      exampleBlankHookStep.OnFailure = [" "] ∧
      (LocalExecutor.Execute exampleOS 0 exampleBlankHookStep [] "/ws").log.map
          (fun l => (l.cmd.Name, l.cmd.Args, l.hook)) = [("false", [], false)] := by
  decide

/-- C6, amended: the launches of `Execute` are the main launches followed by the hook
launches. The main launches are, in declared order, the non-blank commands up to and
including the first one that fails, or all of them when none fails. The hook launches
are, in order, the non-blank commands of `on_failure` when a main command failed and
the non-blank commands of `on_success` when none failed; blank hooks are skipped and
the two lists are never both run. A command or hook is dropped by `filterMap` exactly
when it is blank. -/
theorem launch_sequence {σ : Type} (os : OS σ) (w : σ) (step : Step) (env : GoMap)
    (workspace : String) :
    ∃ M H, (LocalExecutor.Execute os w step env workspace).log = M ++ H ∧
      (∀ l ∈ M, l.hook = false) ∧ (∀ l ∈ H, l.hook = true) ∧
      (((∀ l ∈ M, l.err = none) ∧
          (LocalExecutor.Execute os w step env workspace).result.Success = true ∧
          M.map Launch.cmd = (step.Commands.filterMap mainCommand).map
            (mkCmd workspace (buildExecEnv (os.environ w) env step) (stepTimeout step)) ∧
          H.map Launch.cmd = (step.OnSuccess.filterMap hookCommand).map
            (mkCmd workspace (buildExecEnv (os.environ w) env step) (stepTimeout step))) ∨
        (∃ pre c post pa e M0,
          (LocalExecutor.Execute os w step env workspace).result.Success = false ∧
          step.Commands = pre ++ c :: post ∧ mainCommand c = some pa ∧
          M = M0 ++ [⟨mkCmd workspace (buildExecEnv (os.environ w) env step)
            (stepTimeout step) pa, false, some e⟩] ∧
          (∀ l ∈ M0, l.err = none) ∧
          M0.map Launch.cmd = (pre.filterMap mainCommand).map
            (mkCmd workspace (buildExecEnv (os.environ w) env step) (stepTimeout step)) ∧
          H.map Launch.cmd = (step.OnFailure.filterMap hookCommand).map
            (mkCmd workspace (buildExecEnv (os.environ w) env step) (stepTimeout step)))) ∧
      (∀ c, mainCommand c = none ↔ isBlank c) ∧ (∀ c, hookCommand c = none ↔ isBlank c) := by
  obtain ⟨_, _, hcases⟩ := LocalExecutor.Execute_cases os w step env workspace
  rcases hcases with ⟨M, H, h1, _, _, h4, h5, h6, h7, h8⟩ |
    ⟨e, M, H, pre, c, post, pa, h1, _, _, h4, h5, h6, h7, h8, h9, h10⟩
  · exact ⟨M, H, h4, fun l hl => (h6 l hl).1, h8,
      Or.inl ⟨fun l hl => (h6 l hl).2, h1, h5, h7⟩,
      mainCommand_eq_none_iff, hookCommand_eq_none_iff⟩
  · refine ⟨M ++ [⟨mkCmd workspace (buildExecEnv (os.environ w) env step)
        (stepTimeout step) pa, false, some e⟩], H, h4, ?_, h10,
      Or.inr ⟨pre, c, post, pa, e, M, h1, h5, h6, rfl, fun l hl => (h8 l hl).2, h7, h9⟩,
      mainCommand_eq_none_iff, hookCommand_eq_none_iff⟩
    intro l hl
    simp only [List.mem_append, List.mem_singleton] at hl
    rcases hl with hl | hl
    · exact (h8 l hl).1
    · subst hl
      rfl

/-! ### The environment list of the local executor -/

theorem splitEntryChars_entry (k v : List Char) (hk : '=' ∉ k) :
    splitEntryChars (k ++ '=' :: v) = some (k, v) := by
  induction k with
  | nil => simp [splitEntryChars]
  | cons c t ih =>
    have hc : c ≠ '=' := fun h => hk (by simp [h])
    have ht : '=' ∉ t := fun h => hk (List.mem_cons_of_mem _ h)
    simp [splitEntryChars, hc, ih ht]

theorem splitEntry_entry (k v : String) (hk : '=' ∉ k.data) :
    splitEntry (k ++ "=" ++ v) = some (k, v) := by
  have hdata : (k ++ "=" ++ v).data = k.data ++ '=' :: v.data := by
    simp [String.data_append]
  simp only [splitEntry, hdata, splitEntryChars_entry k.data v.data hk]

theorem lookupEnv_foldl (k : String) (l : List String) (init : Option String) :
    l.foldl
        (fun found entry =>
          match splitEntry entry with
          | some (k', v) => if k' = k then some v else found
          | none => found)
        init
      = (lookupEnv l k).or init := by
  induction l generalizing init with
  | nil => simp [lookupEnv]
  | cons e t ih =>
    simp only [lookupEnv, List.foldl_cons]
    rw [ih, ih (match splitEntry e with
      | some (k', v) => if k' = k then some v else none
      | none => none)]
    cases hs : splitEntry e with
    | none => simp
    | some kv =>
      obtain ⟨k', v⟩ := kv
      by_cases hk : k' = k
      · simp only [hk, if_true]
        cases lookupEnv t k <;> simp
      · simp [hk]

theorem lookupEnv_append (l1 l2 : List String) (k : String) :
    lookupEnv (l1 ++ l2) k = (lookupEnv l2 k).or (lookupEnv l1 k) := by
  have h := lookupEnv_foldl k l2 (lookupEnv l1 k)
  simp only [lookupEnv, List.foldl_append] at h ⊢
  exact h

theorem lookupEnv_entries (m : GoMap) (k : String) (hwf : m.WF)
    (hkeys : ∀ kv ∈ m, '=' ∉ kv.1.data) :
    lookupEnv (m.map (fun kv => kv.1 ++ "=" ++ kv.2)) k = m.get? k := by
  induction m with
  | nil => rfl
  | cons a t ih =>
    obtain ⟨ka, va⟩ := a
    have hnd : ka ∉ GoMap.keys t ∧ GoMap.WF t := by
      simpa [GoMap.WF, GoMap.keys] using hwf
    have hka : '=' ∉ ka.data := hkeys (ka, va) (List.mem_cons_self _ _)
    have hrest := ih hnd.2 (fun kv hkv => hkeys kv (List.mem_cons_of_mem _ hkv))
    have hone : lookupEnv [ka ++ "=" ++ va] k = if ka = k then some va else none := by
      simp only [lookupEnv, List.foldl_cons, List.foldl_nil, splitEntry_entry ka va hka]
    have happ := lookupEnv_append [ka ++ "=" ++ va]
      (t.map (fun kv => kv.1 ++ "=" ++ kv.2)) k
    simp only [List.singleton_append] at happ
    simp only [List.map_cons, happ, hrest, hone, GoMap.get?]
    by_cases h1 : ka = k
    · subst h1
      have hnone : GoMap.get? t ka = none := (GoMap.get?_eq_none_iff t ka).2 hnd.1
      simp [hnone]
    · simp [h1]

theorem appendEnv_eq (execEnv : List String) (m : GoMap) :
    appendEnv execEnv m = execEnv ++ m.map (fun kv => kv.1 ++ "=" ++ kv.2) := by
  induction m generalizing execEnv with
  | nil => simp [appendEnv]
  | cons a t ih =>
    simp only [appendEnv, List.foldl_cons] at ih ⊢
    rw [ih]
    simp

theorem cmd_env_of_map (L : List Launch) (X : List (String × List String))
    (workspace : String) (execEnv : List String) (timeout : Option Int)
    (hmap : L.map Launch.cmd = X.map (mkCmd workspace execEnv timeout)) :
    ∀ l ∈ L, l.cmd.Env = execEnv ∧ l.cmd.Dir = workspace := by
  intro l hl
  have hmem : l.cmd ∈ L.map Launch.cmd := List.mem_map.2 ⟨l, hl, rfl⟩
  rw [hmap] at hmem
  obtain ⟨pa, _, hpa⟩ := List.mem_map.1 hmem
  rw [← hpa]
  exact ⟨rfl, rfl⟩

/-- C8: the environment list `Execute` builds is the inherited entries, then one
`KEY=VALUE` entry per entry of the caller's map, then one per entry of the step's map,
and every process `Execute` launches runs with that list; under last-entry-wins lookup
a key resolves to the step's value if the step defines it, else to the caller's value
if the caller defines it, else to what the inherited entries give. -/
theorem exec_env_precedence {σ : Type} (os : OS σ) (w : σ) (env : GoMap) (step : Step)
    (workspace : String) (k : String)
    (henv : env.WF) (hstep : ∀ m, step.Env = some m → m.WF)
    (hkeys : ∀ kv ∈ env, '=' ∉ kv.1.data)
    (hskeys : ∀ m, step.Env = some m → ∀ kv ∈ m, '=' ∉ kv.1.data) :
    buildExecEnv (os.environ w) env step
        = os.environ w ++ env.map (fun kv => kv.1 ++ "=" ++ kv.2)
          ++ (step.Env.getD []).map (fun kv => kv.1 ++ "=" ++ kv.2) ∧
      (∀ l ∈ (LocalExecutor.Execute os w step env workspace).log,
        l.cmd.Env = buildExecEnv (os.environ w) env step) ∧
      lookupEnv (buildExecEnv (os.environ w) env step) k
        = (step.Env.bind (fun m => m.get? k)).or
            ((env.get? k).or (lookupEnv (os.environ w) k)) := by
  have hbuild : buildExecEnv (os.environ w) env step
      = os.environ w ++ env.map (fun kv => kv.1 ++ "=" ++ kv.2)
        ++ (step.Env.getD []).map (fun kv => kv.1 ++ "=" ++ kv.2) := by
    cases hs : step.Env with
    | none => simp [buildExecEnv, hs, appendEnv_eq]
    | some m => simp [buildExecEnv, hs, appendEnv_eq]
  refine ⟨hbuild, ?_, ?_⟩
  · obtain ⟨_, _, hcases⟩ := LocalExecutor.Execute_cases os w step env workspace
    intro l hl
    rcases hcases with ⟨M, H, _, _, _, h4, h5, _, h7, _⟩ |
      ⟨e, M, H, pre, c, post, pa, _, _, _, h4, _, _, h7, _, h9, _⟩
    · rw [h4] at hl
      rcases List.mem_append.1 hl with hl | hl
      · exact (cmd_env_of_map M _ _ _ _ h5 l hl).1
      · exact (cmd_env_of_map H _ _ _ _ h7 l hl).1
    · rw [h4] at hl
      simp only [List.mem_append, List.mem_singleton] at hl
      rcases hl with (hl | hl) | hl
      · exact (cmd_env_of_map M _ _ _ _ h7 l hl).1
      · subst hl
        rfl
      · exact (cmd_env_of_map H _ _ _ _ h9 l hl).1
  · rw [hbuild, lookupEnv_append, lookupEnv_append, lookupEnv_entries env k henv hkeys]
    cases hs : step.Env with
    | none => simp [lookupEnv]
    | some m =>
      simp only [Option.getD_some]
      rw [lookupEnv_entries m k (hstep m hs) (hskeys m hs)]
      rfl

/-- Witness of C8: `TEST_VAR` is set in the inherited environment, by the caller and by
the step. -/
theorem exec_env_precedence_witness :
    (exampleCallerEnv.WF ∧ (∀ m, exampleShadowStep.Env = some m → m.WF) ∧
      (∀ kv ∈ exampleCallerEnv, '=' ∉ kv.1.data) ∧
      (∀ m, exampleShadowStep.Env = some m → ∀ kv ∈ m, '=' ∉ kv.1.data)) ∧
    (buildExecEnv (exampleOS.environ 0) exampleCallerEnv exampleShadowStep
        = exampleOS.environ 0 ++ exampleCallerEnv.map (fun kv => kv.1 ++ "=" ++ kv.2)
          ++ (exampleShadowStep.Env.getD []).map (fun kv => kv.1 ++ "=" ++ kv.2) ∧
      (∀ l ∈ (LocalExecutor.Execute exampleOS 0 exampleShadowStep exampleCallerEnv "/ws").log,
        l.cmd.Env = buildExecEnv (exampleOS.environ 0) exampleCallerEnv exampleShadowStep) ∧
      lookupEnv (buildExecEnv (exampleOS.environ 0) exampleCallerEnv exampleShadowStep)
          "TEST_VAR"
        = (exampleShadowStep.Env.bind (fun m => m.get? "TEST_VAR")).or
            ((exampleCallerEnv.get? "TEST_VAR").or
              (lookupEnv (exampleOS.environ 0) "TEST_VAR"))) :=
  ⟨⟨by decide, fun m hm => by cases hm; decide, by decide,
      fun m hm => by cases hm; decide⟩,
    exec_env_precedence exampleOS 0 exampleCallerEnv exampleShadowStep "/ws" "TEST_VAR"
      (by decide) (fun m hm => by cases hm; decide) (by decide)
      (fun m hm => by cases hm; decide)⟩

/-! ### The model run on the examples -/

theorem Fields_examples :
    Fields "  echo   hello\tworld \n" = ["echo", "hello", "world"] ∧ Fields "" = [] ∧
      Fields " \t " = [] ∧ Fields "sleep 10" = ["sleep", "10"] := by
  decide

theorem mainCommand_examples :
    mainCommand "echo hello world" = some ("echo", ["hello", "world"]) ∧
      mainCommand "echo $TEST_VAR" = some ("sh", ["-c", "echo $TEST_VAR"]) ∧
      mainCommand "make && make test" = some ("sh", ["-c", "make && make test"]) ∧
      mainCommand "   " = none := by
  decide

theorem Execute_example :
    (LocalExecutor.Execute exampleOS 0 exampleFailingStep exampleCallerEnv "/ws").result
        = { Success := false, ExitCode := 1,
            Output := "echo\n\nError: exit status 1\necho\n", Error := "exit status 1",
            Duration := 3, Step := exampleFailingStep } ∧
      (LocalExecutor.Execute exampleOS 0 exampleFailingStep exampleCallerEnv "/ws").log.map
          (fun l => (l.cmd.Name, l.cmd.Args, l.hook))
        = [("echo", ["one"], false), ("false", [], false), ("echo", ["cleanup"], true)] := by
  decide

theorem Run_example :
    exampleRunner.Run exampleFileSystem ⟨[]⟩ "pipeline.yaml" exampleSchedule
      = some ⟨some "pipeline failed at step: fail-step",
          [.Setup "/tmp/cicd-workspace",
            .Execute (exampleStep "fail-step" ["echo \"This will fail\""]),
            .Execute (exampleStep "success-step" ["echo \"This will succeed\""]),
            .Teardown "/tmp/cicd-workspace"]⟩ := by
  decide

/-! ### Validation and loading -/

/-- C12: `Step.Validate` returns an error iff the name is empty or the command list has
length zero (a nil and an empty list are the same list here), and nil otherwise; the
error is the name sentinel when the name is empty and the commands sentinel when only
the command list is empty. -/
theorem Step_Validate_iff (s : Step) :
    (s.Validate ≠ none ↔ s.Name = "" ∨ s.Commands.length = 0) ∧
      (¬ (s.Name = "" ∨ s.Commands.length = 0) → s.Validate = none) ∧
      (s.Name = "" → s.Validate = some ErrStepNameRequired) ∧
      (s.Name ≠ "" → s.Commands.length = 0 → s.Validate = some ErrStepCommandsRequired) := by
  unfold Step.Validate
  by_cases h1 : s.Name = ""
  · simp [h1]
  · by_cases h2 : s.Commands.length = 0
    · simp [h1, h2]
    · simp [h1, h2]

theorem validateSteps_eq_none_iff (i : Nat) (steps : List Step) :
    validateSteps i steps = none ↔ ∀ s ∈ steps, s.Validate = none := by
  induction steps generalizing i with
  | nil => simp [validateSteps]
  | cons a t ih =>
    cases ha : a.Validate with
    | none => simp [validateSteps, ha, ih]
    | some e => simp [validateSteps, ha]

/-- C13: `Pipeline.Validate` returns an error iff the name is empty, or there is no
step, or some step fails `Step.Validate`; it returns nil otherwise. -/
theorem Pipeline_Validate_iff (p : Pipeline) :
    (p.Validate ≠ none ↔
      p.Name = "" ∨ p.Steps.length = 0 ∨ ∃ s ∈ p.Steps, s.Validate ≠ none) ∧
    (¬ (p.Name = "" ∨ p.Steps.length = 0 ∨ ∃ s ∈ p.Steps, s.Validate ≠ none) →
      p.Validate = none) := by
  have hiff : p.Validate ≠ none ↔
      p.Name = "" ∨ p.Steps.length = 0 ∨ ∃ s ∈ p.Steps, s.Validate ≠ none := by
    unfold Pipeline.Validate
    by_cases h1 : p.Name = ""
    · simp [h1]
    · by_cases h2 : p.Steps.length = 0
      · simp [h1, h2]
      · simp only [h1, h2, if_false, false_or, ne_eq, validateSteps_eq_none_iff]
        push_neg
        rfl
  refine ⟨hiff, fun hn => ?_⟩
  by_contra hv
  exact hn (hiff.1 hv)

/-- C14: when loading the pipeline fails with the error `e`, whatever the schedule,
`Run` returns the error "failed to load pipeline: " followed by `e` and makes no call
on the executor; and `Load` fails whenever reading the file, parsing it or validating
the pipeline fails. -/
theorem Run_load_failure (r : Runner) (fs : FileSystem) (h : Heap) (path : String)
    (sched : List Action) (e : String) (hload : Load fs path = .error e) :
    r.Run fs h path sched = some ⟨some ("failed to load pipeline: " ++ e), []⟩ ∧
      "failed to load pipeline".data <+: ("failed to load pipeline: " ++ e).data ∧
      e.data <:+ ("failed to load pipeline: " ++ e).data ∧
      (∀ out, r.Run fs h path sched = some out → out.err ≠ none ∧ out.calls = []) ∧
      ((∀ e0, fs.readFile path = .error e0 →
          Load fs path = .error ("failed to read pipeline file: " ++ e0)) ∧
        (∀ data e0, fs.readFile path = .ok data → fs.unmarshal data = .error e0 →
          Load fs path = .error ("failed to parse pipeline file: " ++ e0)) ∧
        (∀ data p e0, fs.readFile path = .ok data → fs.unmarshal data = .ok p →
          p.Validate = some e0 → Load fs path = .error ("invalid pipeline: " ++ e0))) := by
  have hrun : r.Run fs h path sched = some ⟨some ("failed to load pipeline: " ++ e), []⟩ := by
    simp only [Runner.Run, hload]
  refine ⟨hrun, ?_, ?_, ?_, ?_, ?_, ?_⟩
  · rw [String.data_append]
    exact ⟨": ".data ++ e.data, by
      have : "failed to load pipeline: ".data = "failed to load pipeline".data ++ ": ".data := by
        decide
      rw [this, List.append_assoc]⟩
  · rw [String.data_append]
    exact List.suffix_append _ _
  · intro out hout
    rw [hrun] at hout
    simp only [Option.some.injEq] at hout
    subst hout
    simp
  · intro e0 h0
    simp only [Load, h0]
  · intro data e0 h0 h1
    simp only [Load, h0, h1]
  · intro data p e0 h0 h1 h2
    simp only [Load, h0, h1, h2]

/-- Witness of C14: `Run` on the path `/nonexistent/pipeline.yaml` of a file system
on which the read fails. -/
theorem Run_load_failure_witness :
    Load exampleMissingFileSystem "/nonexistent/pipeline.yaml"
        = .error ("failed to read pipeline file: "
            ++ "open /nonexistent/pipeline.yaml: no such file or directory") ∧
      exampleRunner.Run exampleMissingFileSystem ⟨[]⟩ "/nonexistent/pipeline.yaml"
          exampleSchedule
        = some ⟨some ("failed to load pipeline: " ++ ("failed to read pipeline file: "
            ++ "open /nonexistent/pipeline.yaml: no such file or directory")), []⟩ :=
  ⟨rfl, (Run_load_failure exampleRunner exampleMissingFileSystem ⟨[]⟩
    "/nonexistent/pipeline.yaml" exampleSchedule _ rfl).1⟩

/-! ### Step eligibility -/

theorem Step.ShouldRun_iff (s : Step) :
    s.ShouldRun = true ↔
      s.When = "" ∨ s.When = "always" ∨ s.When = "on_success" ∨ s.When = "on_failure" := by
  unfold Step.ShouldRun
  by_cases h1 : s.When = "" ∨ s.When = "always"
  · simp only [h1, if_true, true_iff]
    rcases h1 with h1 | h1
    · exact Or.inl h1
    · exact Or.inr (Or.inl h1)
  · simp only [h1, if_false, decide_eq_true_eq]
    constructor
    · intro h
      rcases h with h | h
      · exact Or.inr (Or.inr (Or.inl h))
      · exact Or.inr (Or.inr (Or.inr h))
    · intro h
      rcases h with h | h | h | h
      · exact absurd (Or.inl h) h1
      · exact absurd (Or.inr h) h1
      · exact Or.inl h
      · exact Or.inr h

/-- C18: `ShouldRun` is true exactly when `when` is the empty string, `always`,
`on_success` or `on_failure`; and in every state `executeSteps` can reach, the
goroutines launched so far are, in order, the steps among those the loop has visited
whose `ShouldRun` is true, so that when `executeSteps` returns a goroutine has been
launched, and `Execute` called, for a step iff its `ShouldRun` is true. -/
theorem step_eligibility (r : Runner) (h : Heap) (p : Pipeline) (env : Nat)
    (workspace : String) (henv : env < h.cells.length) (sched : List Action)
    (st : PoolState)
    (hrun : poolRun r p env workspace
      (effectiveConcurrency p.Concurrency r.config.Runner.Capacity) (poolInit h) sched
        = some st) :
    (∀ s : Step, (s.ShouldRun = true ↔
        s.When = "" ∨ s.When = "always" ∨ s.When = "on_success" ∨ s.When = "on_failure") ∧
      (s.ShouldRun = false ↔
        ¬ (s.When = "" ∨ s.When = "always" ∨ s.When = "on_success" ∨
          s.When = "on_failure"))) ∧
    st.tasks.map Task.step = (p.Steps.take st.i).filter Step.ShouldRun ∧
    (st.finished p = true →
      st.tasks.map Task.step = p.Steps.filter Step.ShouldRun ∧
      st.calls.Perm (p.Steps.filter Step.ShouldRun) ∧
      ∀ s ∈ p.Steps, (s ∈ st.tasks.map Task.step ↔ s.ShouldRun = true)) := by
  have hinv := poolRun_inv r p env workspace _ h sched _ st henv
    (poolInit_inv r p env workspace _ h) hrun
  refine ⟨fun s => ⟨Step.ShouldRun_iff s, ?_⟩, hinv.steps_eq, ?_⟩
  · rw [← Step.ShouldRun_iff s]
    cases s.ShouldRun <;> simp
  · intro hfin
    have hcalls := (finished_results r p env workspace _ h st hinv hfin).2.1
    have hi : st.i = p.Steps.length := by
      simp only [PoolState.finished, Bool.and_eq_true, decide_eq_true_eq] at hfin
      exact hfin.1
    have hsteps : st.tasks.map Task.step = p.Steps.filter Step.ShouldRun := by
      rw [hinv.steps_eq, hi, List.take_length]
    refine ⟨hsteps, hcalls, ?_⟩
    intro s hs
    rw [hsteps, List.mem_filter]
    exact ⟨fun hm => hm.2, fun hr => ⟨hs, hr⟩⟩

/-- Witness of C18: three steps, the second with `when: manual`; the run launches two
goroutines and calls `Execute` twice, for the first and the third step. -/
theorem step_eligibility_witness :
    (0 < exampleHeap.cells.length ∧
      poolRun exampleRunner exampleGatedPipeline 0 "/tmp/ws"
        (effectiveConcurrency exampleGatedPipeline.Concurrency
          exampleRunner.config.Runner.Capacity) (poolInit exampleHeap)
          exampleGatedSchedule = some exampleGatedState ∧
      exampleGatedState.finished exampleGatedPipeline = true) ∧
    ((∀ s : Step, (s.ShouldRun = true ↔
        s.When = "" ∨ s.When = "always" ∨ s.When = "on_success" ∨ s.When = "on_failure") ∧
      (s.ShouldRun = false ↔
        ¬ (s.When = "" ∨ s.When = "always" ∨ s.When = "on_success" ∨
          s.When = "on_failure"))) ∧
    exampleGatedState.tasks.map Task.step
      = (exampleGatedPipeline.Steps.take exampleGatedState.i).filter Step.ShouldRun ∧
    (exampleGatedState.finished exampleGatedPipeline = true →
      exampleGatedState.tasks.map Task.step
        = exampleGatedPipeline.Steps.filter Step.ShouldRun ∧
      exampleGatedState.calls.Perm (exampleGatedPipeline.Steps.filter Step.ShouldRun) ∧
      ∀ s ∈ exampleGatedPipeline.Steps,
        (s ∈ exampleGatedState.tasks.map Task.step ↔ s.ShouldRun = true))) :=
  ⟨⟨by decide, by decide, by decide⟩,
    step_eligibility exampleRunner exampleHeap exampleGatedPipeline 0 "/tmp/ws"
      (by decide) exampleGatedSchedule exampleGatedState (by decide)⟩

/-! ### The dispatch of hooks -/

theorem hookCommand_ne_mainCommand (h : String) (ht : containsTrigger h) :
    hookCommand h ≠ mainCommand h := by
  have hmain : mainCommand h = some ("sh", ["-c", h]) :=
    (mainCommand_shell_iff h).2 ((needsShell_iff h).2 ht)
  rw [hmain]
  intro heq
  cases hf : Fields h with
  | nil => simp [hookCommand, hf] at heq
  | cons name args =>
    simp only [hookCommand, hf, Option.some.injEq, Prod.mk.injEq] at heq
    apply Fields_ne_sh h
    rw [hf, heq.1, heq.2]

theorem hookCommand_eq_mainCommand (h : String) (ht : ¬ containsTrigger h) :
    hookCommand h = mainCommand h := by
  have hn : ¬ needsShell h = true := fun hs => ht ((needsShell_iff h).1 hs)
  simp only [hookCommand, mainCommand, hn, Bool.false_eq_true, if_false]

/-- C11, the code at the failing input: for the hook `echo $STATUS > status.txt` the
main-command dispatch builds `sh -c`, while `executeHooks` builds the program `echo`
with the arguments `$STATUS`, `>` and `status.txt`, and that is what `Execute`
launches after the failing command; the two dispatches differ on every string that
contains a trigger and agree on every string that contains none. -/
theorem hook_dispatch_shell :
    mainCommand "echo $STATUS > status.txt"
        = some ("sh", ["-c", "echo $STATUS > status.txt"]) ∧
      hookCommand "echo $STATUS > status.txt"
        = some ("echo", ["$STATUS", ">", "status.txt"]) ∧
      (LocalExecutor.Execute exampleOS 0 exampleShellHookStep [] "/ws").log.map
          (fun l => (l.cmd.Name, l.cmd.Args, l.hook))
        = [("false", [], false), ("echo", ["$STATUS", ">", "status.txt"], true)] ∧
      (∀ h, containsTrigger h → hookCommand h ≠ mainCommand h) ∧
      (∀ h, ¬ containsTrigger h → hookCommand h = mainCommand h) :=
  ⟨by decide, by decide, by decide, hookCommand_ne_mainCommand, hookCommand_eq_mainCommand⟩

/-! ### The mock executor -/

theorem ResultHeap.read_fresh (H : ResultHeap) (r : Result) :
    (H.alloc r).1.read (H.alloc r).2 = some r := by
  simp [ResultHeap.read, ResultHeap.alloc]

theorem ResultHeap.read_kept (H : ResultHeap) (r : Result) (a : Nat)
    (ha : a < H.objs.length) : (H.alloc r).1.read a = H.read a := by
  simp [ResultHeap.read, ResultHeap.alloc, List.getElem?_append_left ha]

theorem ResultHeap.read_write_self (H : ResultHeap) (a : Nat) (r r0 : Result)
    (ha : H.read a = some r0) : (H.write a r).read a = some r := by
  have hlt : a < H.objs.length := by
    simp only [ResultHeap.read] at ha
    exact (List.getElem?_eq_some.1 ha).1
  simp [ResultHeap.read, ResultHeap.write, List.getElem?_set_self hlt]

theorem ResultHeap.read_write_ne (H : ResultHeap) (a b : Nat) (r : Result) (hab : a ≠ b) :
    (H.write a r).read b = H.read b := by
  simp [ResultHeap.read, ResultHeap.write, List.getElem?_set_ne hab]

theorem ResultMap.get?_of_set (m : ResultMap) (k : String) (v : Nat) (k' : String) :
    ResultMap.get? (ResultMap.set m k v) k' = if k = k' then some v else ResultMap.get? m k' := by
  induction m with
  | nil => simp [ResultMap.set, ResultMap.get?]
  | cons x t ih =>
    obtain ⟨kx, vx⟩ := x
    by_cases h1 : kx = k
    · subst h1
      by_cases h2 : kx = k' <;> simp [ResultMap.set, ResultMap.get?, h2]
    · by_cases h2 : kx = k'
      · subst h2
        have h3 : ¬ k = kx := fun h => h1 h.symm
        simp [ResultMap.set, ResultMap.get?, h1, h3]
      · simp [ResultMap.set, ResultMap.get?, h1, h2, ih]

theorem MockExecutor.Execute_unregistered (lowerTable : Char → Char) (elapsed : Nat)
    (e : MockExecutor) (H : ResultHeap) (step : Step) (env : GoMap) (workspace : String)
    (hreg : ResultMap.get? e.results step.Name = none) :
    ∃ H1, MockExecutor.Execute lowerTable elapsed e H step env workspace
        = some ((H.objs.length, none), H1) ∧
      H1.read H.objs.length = some
        (if Contains (ToLower lowerTable step.Name) "fail" ||
            Contains (ToLower lowerTable step.Name) "error" then
          { Success := false, ExitCode := 1, Output := mockTranscript step env workspace,
            Error := "Mock execution failed (simulated)", Duration := elapsed, Step := step }
        else
          { Success := true, ExitCode := 0, Output := mockTranscript step env workspace,
            Error := "", Duration := elapsed, Step := step }) ∧
      ∀ b, b < H.objs.length → H1.read b = H.read b := by
  by_cases hc : (Contains (ToLower lowerTable step.Name) "fail" ||
      Contains (ToLower lowerTable step.Name) "error") = true
  · refine ⟨(H.alloc ⟨true, 0, mockTranscript step env workspace, "", elapsed, step⟩).1.write
        H.objs.length ⟨false, 1, mockTranscript step env workspace,
          "Mock execution failed (simulated)", elapsed, step⟩, ?_, ?_, ?_⟩
    · simp only [MockExecutor.Execute, hreg, hc, if_true, ResultHeap.alloc]
    · simp only [hc, if_true]
      exact ResultHeap.read_write_self _ _ _ _ (ResultHeap.read_fresh H _)
    · intro b hb
      have hne : H.objs.length ≠ b := by omega
      rw [ResultHeap.read_write_ne _ _ _ _ hne]
      exact ResultHeap.read_kept H _ b hb
  · refine ⟨(H.alloc ⟨true, 0, mockTranscript step env workspace, "", elapsed, step⟩).1,
      ?_, ?_, ?_⟩
    · simp only [MockExecutor.Execute, hreg, hc, ResultHeap.alloc, Bool.false_eq_true,
        if_false]
    · simp only [hc, if_false]
      exact ResultHeap.read_fresh H _
    · intro b hb
      exact ResultHeap.read_kept H _ b hb

theorem containsFold_iff (lowerTable : Char → Char) (name word : String) :
    containsFold lowerTable name word ↔ Contains (ToLower lowerTable name) word = true :=
  (Contains_iff _ _).symm

theorem containsFold_of_containsAnyCase (lowerTable : Char → Char) (name word : String)
    (hword : ∀ c ∈ word.data, c.toNat ≤ 127) (h : containsAnyCase name word) :
    containsFold lowerTable name word := by
  obtain ⟨w, hw, hmap⟩ := h
  have hsame : w.map (unicodeToLower lowerTable) = w.map asciiLower := by
    apply List.map_congr_left
    intro c hc
    have hmem : asciiLower c ∈ word.data := by
      rw [← hmap]
      exact List.mem_map.2 ⟨c, hc, rfl⟩
    have hle := hword _ hmem
    by_cases hc127 : c.toNat ≤ 127
    · simp only [unicodeToLower, hc127, if_true]
    · have hid : asciiLower c = c := by
        have : ¬ (65 ≤ c.toNat ∧ c.toNat ≤ 90) := by omega
        simp only [asciiLower, this, if_false]
      rw [hid] at hle
      exact absurd hle hc127
  have hinf := List.IsInfix.map (unicodeToLower lowerTable) hw
  rw [hsame, hmap] at hinf
  exact hinf

/-- C15: for a step whose name has no registered template, `Execute` returns a nil
error and a newly allocated result, for the input step, with `Success = false`, exit
code 1 and the error "Mock execution failed (simulated)" iff the lower-cased step
name contains "fail" or contains "error"; otherwise the result has `Success = true`,
exit code 0 and an empty error. -/
theorem mock_simulated_failure (lowerTable : Char → Char) (elapsed : Nat)
    (e : MockExecutor) (H : ResultHeap) (step : Step) (env : GoMap) (workspace : String)
    (hreg : ResultMap.get? e.results step.Name = none) :
    ∃ a H1 res, MockExecutor.Execute lowerTable elapsed e H step env workspace
        = some ((a, none), H1) ∧
      H1.read a = some res ∧ H.read a = none ∧ res.Step = step ∧
      ((res.Success = false ∧ res.ExitCode = 1 ∧
          res.Error = "Mock execution failed (simulated)") ↔
        ("fail".data <:+: (ToLower lowerTable step.Name).data ∨
          "error".data <:+: (ToLower lowerTable step.Name).data)) ∧
      (¬ ("fail".data <:+: (ToLower lowerTable step.Name).data ∨
          "error".data <:+: (ToLower lowerTable step.Name).data) →
        res.Success = true ∧ res.ExitCode = 0 ∧ res.Error = "") := by
  obtain ⟨H1, hexec, hread, _⟩ :=
    MockExecutor.Execute_unregistered lowerTable elapsed e H step env workspace hreg
  have hnew : H.read H.objs.length = none := by
    simp [ResultHeap.read]
  by_cases hc : (Contains (ToLower lowerTable step.Name) "fail" ||
      Contains (ToLower lowerTable step.Name) "error") = true
  · simp only [hc, if_true] at hread
    have hor : "fail".data <:+: (ToLower lowerTable step.Name).data ∨
        "error".data <:+: (ToLower lowerTable step.Name).data := by
      simpa only [Bool.or_eq_true, Contains_iff] using hc
    exact ⟨_, H1, _, hexec, hread, hnew, rfl,
      ⟨fun _ => hor, fun _ => ⟨rfl, rfl, rfl⟩⟩, fun hn => absurd hor hn⟩
  · simp only [hc, if_false] at hread
    have hor : ¬ ("fail".data <:+: (ToLower lowerTable step.Name).data ∨
        "error".data <:+: (ToLower lowerTable step.Name).data) := by
      simpa only [Bool.or_eq_true, Contains_iff] using hc
    refine ⟨_, H1, _, hexec, hread, hnew, rfl, ⟨fun hf => ?_, fun h => absurd h hor⟩,
      fun _ => ⟨rfl, rfl, rfl⟩⟩
    exact absurd hf.1 (by simp)

/-- Witness of C15: the step `test-fail-step` of `TestMockExecutorFailureSimulation` on
a new mock executor. -/
theorem mock_simulated_failure_witness :
    ResultMap.get? NewMockExecutor.results exampleMockFailStep.Name = none ∧
    ∃ a H1 res, MockExecutor.Execute exampleLowerTable 0 NewMockExecutor ⟨[]⟩
          exampleMockFailStep [] "/tmp/test" = some ((a, none), H1) ∧
      H1.read a = some res ∧ (⟨[]⟩ : ResultHeap).read a = none ∧
      res.Step = exampleMockFailStep ∧
      ((res.Success = false ∧ res.ExitCode = 1 ∧
          res.Error = "Mock execution failed (simulated)") ↔
        ("fail".data <:+: (ToLower exampleLowerTable exampleMockFailStep.Name).data ∨
          "error".data <:+: (ToLower exampleLowerTable exampleMockFailStep.Name).data)) ∧
      (¬ ("fail".data <:+: (ToLower exampleLowerTable exampleMockFailStep.Name).data ∨
          "error".data <:+: (ToLower exampleLowerTable exampleMockFailStep.Name).data) →
        res.Success = true ∧ res.ExitCode = 0 ∧ res.Error = "") :=
  ⟨by decide, mock_simulated_failure exampleLowerTable 0 NewMockExecutor ⟨[]⟩
    exampleMockFailStep [] "/tmp/test" (by decide)⟩

theorem ToLower_ascii (lowerTable : Char → Char) (s : String)
    (hs : ∀ c ∈ s.data, c.toNat ≤ 127) :
    ToLower lowerTable s = String.mk (s.data.map asciiLower) := by
  simp only [ToLower]
  congr 1
  apply List.map_congr_left
  intro c hc
  simp only [unicodeToLower, hs c hc, if_true]

/-- C16, the claim as stated fails on a name with "error": the name `Deploy-ERROR` does
not contain "fail" in any letter case, whatever the case table, yet the mock executor
returns a result with `Success = false` and exit code 1 for it. -/
theorem mock_error_name_fails :
    (∀ lowerTable, ¬ containsFold lowerTable exampleMockErrorStep.Name "fail") ∧
      (∀ lowerTable elapsed, ∃ a H1 res,
        MockExecutor.Execute lowerTable elapsed NewMockExecutor ⟨[]⟩ exampleMockErrorStep []
            "/tmp/test" = some ((a, none), H1) ∧
          H1.read a = some res ∧ res.Success = false ∧ res.ExitCode = 1) := by
  have hlow : ∀ lowerTable, ToLower lowerTable exampleMockErrorStep.Name = "deploy-error" :=
    fun lowerTable => (ToLower_ascii lowerTable _ (by decide)).trans (by decide)
  refine ⟨fun lowerTable => ?_, fun lowerTable elapsed => ?_⟩
  · rw [containsFold_iff, hlow]
    decide
  · obtain ⟨H1, hexec, hread, _⟩ := MockExecutor.Execute_unregistered lowerTable elapsed
      NewMockExecutor ⟨[]⟩ exampleMockErrorStep [] "/tmp/test" (by decide)
    have hc : (Contains (ToLower lowerTable exampleMockErrorStep.Name) "fail" ||
        Contains (ToLower lowerTable exampleMockErrorStep.Name) "error") = true := by
      rw [hlow]
      decide
    simp only [hc, if_true] at hread
    exact ⟨_, H1, _, hexec, hread, rfl, rfl⟩

/-- C16, amended: for a step whose name has no registered template, a name that
contains "fail" case-insensitively, in particular in any letter case of the letters A
to Z, yields `Success = false` and exit code 1, and so does a name that contains
"error" case-insensitively; every other name yields `Success = true` and exit code
0. -/
theorem mock_fail_or_error (lowerTable : Char → Char) (elapsed : Nat)
    (e : MockExecutor) (H : ResultHeap) (step : Step) (env : GoMap) (workspace : String)
    (hreg : ResultMap.get? e.results step.Name = none) :
    ∃ a H1 res, MockExecutor.Execute lowerTable elapsed e H step env workspace
        = some ((a, none), H1) ∧
      H1.read a = some res ∧
      (containsFold lowerTable step.Name "fail" → res.Success = false ∧ res.ExitCode = 1) ∧
      (containsAnyCase step.Name "fail" → res.Success = false ∧ res.ExitCode = 1) ∧
      (containsFold lowerTable step.Name "error" → res.Success = false ∧ res.ExitCode = 1) ∧
      (¬ containsFold lowerTable step.Name "fail" →
        ¬ containsFold lowerTable step.Name "error" →
        res.Success = true ∧ res.ExitCode = 0) := by
  obtain ⟨H1, hexec, hread, _⟩ :=
    MockExecutor.Execute_unregistered lowerTable elapsed e H step env workspace hreg
  by_cases hc : (Contains (ToLower lowerTable step.Name) "fail" ||
      Contains (ToLower lowerTable step.Name) "error") = true
  · simp only [hc, if_true] at hread
    refine ⟨_, H1, _, hexec, hread, fun _ => ⟨rfl, rfl⟩, fun _ => ⟨rfl, rfl⟩,
      fun _ => ⟨rfl, rfl⟩, fun h1 h2 => ?_⟩
    rw [containsFold_iff] at h1 h2
    simp only [Bool.or_eq_true] at hc
    rcases hc with hc | hc
    · exact absurd hc h1
    · exact absurd hc h2
  · simp only [hc, if_false] at hread
    simp only [Bool.or_eq_true, not_or] at hc
    refine ⟨_, H1, _, hexec, hread, fun h => ?_, fun h => ?_, fun h => ?_,
      fun _ _ => ⟨rfl, rfl⟩⟩
    · exact absurd ((containsFold_iff _ _ _).1 h) hc.1
    · exact absurd ((containsFold_iff _ _ _).1
        (containsFold_of_containsAnyCase lowerTable step.Name "fail" (by decide) h)) hc.1
    · exact absurd ((containsFold_iff _ _ _).1 h) hc.2

/-- Witness of C16: the unregistered step `Build-FAIL` on a new mock executor. -/
theorem mock_fail_or_error_witness :
    (ResultMap.get? NewMockExecutor.results exampleMockUpperStep.Name = none ∧
      containsAnyCase exampleMockUpperStep.Name "fail") ∧
    ∃ a H1 res, MockExecutor.Execute exampleLowerTable 0 NewMockExecutor ⟨[]⟩
          exampleMockUpperStep [] "/tmp/test" = some ((a, none), H1) ∧
      H1.read a = some res ∧
      (containsFold exampleLowerTable exampleMockUpperStep.Name "fail" →
        res.Success = false ∧ res.ExitCode = 1) ∧
      (containsAnyCase exampleMockUpperStep.Name "fail" →
        res.Success = false ∧ res.ExitCode = 1) ∧
      (containsFold exampleLowerTable exampleMockUpperStep.Name "error" →
        res.Success = false ∧ res.ExitCode = 1) ∧
      (¬ containsFold exampleLowerTable exampleMockUpperStep.Name "fail" →
        ¬ containsFold exampleLowerTable exampleMockUpperStep.Name "error" →
        res.Success = true ∧ res.ExitCode = 0) :=
  ⟨⟨by decide, ⟨"FAIL".data, by decide, by decide⟩⟩,
    mock_fail_or_error exampleLowerTable 0 NewMockExecutor ⟨[]⟩ exampleMockUpperStep []
      "/tmp/test" (by decide)⟩

/-- C17: after `SetResult(name, r)`, where `r` points to a result object, `Execute` on a
step of that name, whatever the name says, returns a nil error and the pointer `r`,
whose object now has the input step and the measured duration and otherwise the
fields it had, `Success`, `ExitCode`, `Output` and `Error` unchanged; no other object
changes; a registration under another name changes nothing of this, and of two
registrations under the same name the later one is used. -/
theorem mock_registered_template (lowerTable : Char → Char) (elapsed : Nat)
    (e : MockExecutor) (H : ResultHeap) (name : String) (a : Nat) (r : Result)
    (step : Step) (env : GoMap) (workspace : String)
    (hname : step.Name = name) (hr : H.read a = some r) :
    (∃ H1 res, MockExecutor.Execute lowerTable elapsed (e.SetResult name a) H step env
          workspace = some ((a, none), H1) ∧
        H1.read a = some res ∧
        res = { r with Step := step, Duration := elapsed } ∧
        res.Success = r.Success ∧ res.ExitCode = r.ExitCode ∧ res.Output = r.Output ∧
        res.Error = r.Error ∧ res.Step = step ∧
        ∀ b, b ≠ a → H1.read b = H.read b) ∧
      (∀ other b, other ≠ name →
        MockExecutor.Execute lowerTable elapsed ((e.SetResult name a).SetResult other b) H
            step env workspace
          = MockExecutor.Execute lowerTable elapsed (e.SetResult name a) H step env
            workspace) ∧
      (∀ a0, MockExecutor.Execute lowerTable elapsed ((e.SetResult name a0).SetResult name a)
            H step env workspace
          = MockExecutor.Execute lowerTable elapsed (e.SetResult name a) H step env
            workspace) := by
  have hget : ResultMap.get? (e.SetResult name a).results step.Name = some a := by
    simp only [MockExecutor.SetResult, ResultMap.get?_of_set, hname, if_true]
  refine ⟨⟨H.write a { r with Step := step, Duration := elapsed }, _, ?_,
    ResultHeap.read_write_self H a _ r hr, rfl, rfl, rfl, rfl, rfl, rfl, ?_⟩, ?_, ?_⟩
  · simp only [MockExecutor.Execute, hget, hr]
  · intro b hb
    exact ResultHeap.read_write_ne H a b _ (fun h => hb h.symm)
  · intro other b hne
    have hget2 : ResultMap.get? ((e.SetResult name a).SetResult other b).results step.Name
        = some a := by
      simp only [MockExecutor.SetResult, ResultMap.get?_of_set, hname, hne, if_true, if_false]
    simp only [MockExecutor.Execute, hget, hget2]
  · intro a0
    have hget2 : ResultMap.get? ((e.SetResult name a0).SetResult name a).results step.Name
        = some a := by
      simp only [MockExecutor.SetResult, ResultMap.get?_of_set, hname, if_true]
    simp only [MockExecutor.Execute, hget, hget2]

/-- Witness of C17: a successful template registered for the step `test-fail-step`,
whose name contains "fail". -/
theorem mock_registered_template_witness :
    (exampleMockFailStep.Name = "test-fail-step" ∧
      exampleTemplateHeap.read 0 = some
        ⟨true, 0, "predefined output", "", 0, exampleStep "" []⟩) ∧
    MockExecutor.Execute exampleLowerTable 5
        (NewMockExecutor.SetResult "test-fail-step" 0) exampleTemplateHeap
        exampleMockFailStep [] "/tmp/test"
      = some ((0, none),
          ⟨[⟨true, 0, "predefined output", "", 5, exampleMockFailStep⟩]⟩) ∧
    (∃ H1 res, MockExecutor.Execute exampleLowerTable 5
          (NewMockExecutor.SetResult "test-fail-step" 0) exampleTemplateHeap
          exampleMockFailStep [] "/tmp/test" = some ((0, none), H1) ∧
        H1.read 0 = some res ∧
        res = { (⟨true, 0, "predefined output", "", 0, exampleStep "" []⟩ : Result) with
          Step := exampleMockFailStep, Duration := 5 } ∧
        res.Success = true ∧ res.ExitCode = 0 ∧ res.Output = "predefined output" ∧
        res.Error = "" ∧ res.Step = exampleMockFailStep ∧
        ∀ b, b ≠ 0 → H1.read b = exampleTemplateHeap.read b) :=
  ⟨⟨rfl, rfl⟩, by decide,
    (mock_registered_template exampleLowerTable 5 NewMockExecutor exampleTemplateHeap
      "test-fail-step" 0 _ exampleMockFailStep [] "/tmp/test" rfl rfl).1⟩

end CicdRunner
